import Mathlib

/-!
Verification development for the tt-zephyr-platforms management firmware.

This file shallowly embeds, in Lean 4:

* the CM2DM (chip-management to die-management) outbound message state
  machine of `lib/tenstorrent/bh_arc/cm2dm_msg.c` (post / request-poll /
  acknowledge handlers, round-robin kind selection, sequence numbers);
* the DMC-side receive loop `process_cm2dm_message` of `app/dmc/src/main.c`
  (sequence-number deduplication, acknowledgment production);
* the NOC coordinate-translation engine of
  `lib/tenstorrent/bh_arc/noc_init.c` (`ComputeNocTranslation`,
  `ApplyLogicalCoords`, `CopyNoc0ToNoc1`, and the
  `debug_noc_translation_handler` command handler).

Machine integers are modelled as `Nat` with explicit `% 2^w` / masking where
the C code can overflow or truncate.  Theorems about the embedded code
follow the definitions.
-/

namespace TT

/-! ### Bit-manipulation primitives (Zephyr `util.h` macros on `uint32_t`) -/

/-- `GENMASK(h, l)` : bits `h` down to `l` set (Zephyr `sys/util.h`). -/
def GENMASK (h l : Nat) : Nat := 2 ^ (h + 1) - 2 ^ l

/-- 32-bit all-ones mask. -/
def MASK32 : Nat := 2 ^ 32 - 1

/-- `LSB_GET(x) = x & -x` on `uint32_t`: isolates the lowest set bit.
For `0 < m < 2^32` the two's-complement negative of `m` is `2^32 - m`. -/
def LSB_GET (m : Nat) : Nat := m &&& (2 ^ 32 - m)

/-- Floor base-2 logarithm by structural recursion on a fuel bound (the
values fed to `LOG2` are 32-bit). -/
def log2Fuel : Nat → Nat → Nat
  | 0, _ => 0
  | fuel + 1, n => if n ≥ 2 then log2Fuel fuel (n / 2) + 1 else 0

/-- `LOG2` of Zephyr for a 32-bit value: floor base-2 logarithm. -/
def LOG2 (m : Nat) : Nat := log2Fuel 32 m

/-- `BIT(i)` of Zephyr. -/
def BIT (i : Nat) : Nat := 1 <<< i

/-- `x & ~BIT(i)` on `uint32_t` (e.g. `atomic_clear_bit`). -/
def clearBit32 (m i : Nat) : Nat := m &&& (MASK32 ^^^ BIT i)

/-- Index of the lowest set bit (count of trailing zeros); `0` on `0`.
Specification-side companion of `LOG2 (LSB_GET m)`. -/
def ctz (m : Nat) : Nat :=
  if h : m = 0 then 0
  else if m % 2 = 1 then 0
  else ctz (m / 2) + 1
decreasing_by exact Nat.div_lt_self (Nat.pos_of_ne_zero h) one_lt_two

/-! ### CM2DM message types (`include/tenstorrent/bh_arc.h`) -/

/-- `Cm2DmMsgId` enumerators: `kCm2DmMsgIdNull = 0` … `kCm2DmMsgIdForcedFanSpeedUpdate = 7`,
`kCm2DmMsgCount = 8`. Message ids are kept as `Nat`. -/
def kCm2DmMsgIdNull : Nat := 0
def kCm2DmMsgIdResetReq : Nat := 1
def kCm2DmMsgIdPing : Nat := 2
def kCm2DmMsgIdFanSpeedUpdate : Nat := 3
def kCm2DmMsgIdReady : Nat := 4
def kCm2DmMsgIdAutoResetTimeoutUpdate : Nat := 5
def kCm2DmMsgTelemHeartbeatUpdate : Nat := 6
def kCm2DmMsgIdForcedFanSpeedUpdate : Nat := 7
def kCm2DmMsgCount : Nat := 8

/-- `struct cm2dmMessage { uint8_t msg_id; uint8_t seq_num; uint32_t data; }`. -/
structure cm2dmMessage where
  msg_id : Nat
  seq_num : Nat
  data : Nat
deriving DecidableEq, Repr

/-- `struct cm2dmAck { uint8_t msg_id; uint8_t seq_num; }`. -/
structure cm2dmAck where
  msg_id : Nat
  seq_num : Nat
deriving DecidableEq, Repr

/-- The all-zero `cm2dmMessage` (result of `memset(&curr_msg, 0, …)`). -/
def zeroMsg : cm2dmMessage := ⟨0, 0, 0⟩

/-! ### CM2DM sender state (`lib/tenstorrent/bh_arc/cm2dm_msg.c`) -/

/-- `Cm2DmMsgState`: `pending_messages` is the 32-bit atomic bitmap of
pending kinds, `next_id_rr` the round-robin cursor, `next_seq_num` the
8-bit sequence counter, `curr_msg_valid`/`curr_msg` the in-flight record,
`next_msgs` the per-kind latest posted value
(`volatile uint32_t next_msgs[kCm2DmMsgCount]`). -/
structure Cm2DmMsgState where
  pending_messages : Nat
  next_id_rr : Nat
  next_seq_num : Nat
  curr_msg_valid : Bool
  curr_msg : cm2dmMessage
  next_msgs : List Nat
deriving DecidableEq, Repr

/-- The zero-initialized state of the `static Cm2DmMsgState cm2dm_msg_state`. -/
def initCm2DmState : Cm2DmMsgState :=
  { pending_messages := 0, next_id_rr := 0, next_seq_num := 0,
    curr_msg_valid := false, curr_msg := zeroMsg,
    next_msgs := List.replicate kCm2DmMsgCount 0 }

/-- `PostCm2DmMsg(msg_id, data)`: store the value for the kind, then set its
pending bit (`atomic_set_bit`). -/
def PostCm2DmMsg (s : Cm2DmMsgState) (msg_id data : Nat) : Cm2DmMsgState :=
  { s with next_msgs := s.next_msgs.set msg_id data,
           pending_messages := s.pending_messages ||| BIT msg_id }

/-- The pure message-kind choice made by `next_id_rr`: among the pending
bits at or above the cursor if any (`pending & GENMASK(31, next_id_rr)`),
otherwise among all pending bits, pick the lowest set bit
(`LOG2(LSB_GET(search_messages))`). -/
def rrChoose (cursor pending : Nat) : Nat :=
  let hi_pending := pending &&& GENMASK 31 cursor
  let search_messages := if hi_pending ≠ 0 then hi_pending else pending
  LOG2 (LSB_GET search_messages)

/-- `static Cm2DmMsgId next_id_rr(uint32_t pending_messages)`: returns the
chosen kind and advances the cursor to `(chosen + 1) % kCm2DmMsgCount`. -/
def next_id_rr (s : Cm2DmMsgState) (pending_messages : Nat) : Cm2DmMsgState × Nat :=
  let next_message_id := rrChoose s.next_id_rr pending_messages
  ({ s with next_id_rr := (next_message_id + 1) % kCm2DmMsgCount }, next_message_id)

/-- `Cm2DmMsgReqSmbusHandler`: if no message is in flight and some kind is
pending, promote the round-robin choice to in-flight (clearing its pending
bit, capturing the latest posted data, assigning `next_seq_num++`); then
copy out the current message buffer (the in-flight message, or the zeroed
null message when nothing was ever in flight). -/
def Cm2DmMsgReqSmbusHandler (s : Cm2DmMsgState) : Cm2DmMsgState × cm2dmMessage :=
  if s.curr_msg_valid then
    (s, s.curr_msg)
  else
    let pending_messages := s.pending_messages
    if pending_messages ≠ 0 then
      let p := next_id_rr s pending_messages
      let s1 := p.1
      let next_message_id := p.2
      let s2 := { s1 with
        pending_messages := clearBit32 s1.pending_messages next_message_id }
      let msg : cm2dmMessage :=
        { msg_id := next_message_id,
          seq_num := s2.next_seq_num,
          data := s2.next_msgs.getD next_message_id 0 }
      ({ s2 with curr_msg := msg,
                 next_seq_num := (s2.next_seq_num + 1) % 256,
                 curr_msg_valid := true }, msg)
    else
      (s, s.curr_msg)

/-- `Cm2DmMsgAckSmbusHandler`: given the 2-byte ack, clear the in-flight
record iff both `msg_id` and `seq_num` match the current valid message;
otherwise leave the state untouched and return `-1`.  `size` is the SMBus
byte count (`size != sizeof(cm2dmAck)` is rejected). -/
def Cm2DmMsgAckSmbusHandler (s : Cm2DmMsgState) (ack : cm2dmAck) (size : Nat) :
    Cm2DmMsgState × Int :=
  if size ≠ 2 then
    (s, -1)
  else if s.curr_msg_valid ∧ ack.msg_id = s.curr_msg.msg_id ∧
      ack.seq_num = s.curr_msg.seq_num then
    ({ s with curr_msg_valid := false, curr_msg := zeroMsg }, 0)
  else
    (s, -1)

/-- One external event against the CM2DM sender state: a `PostCm2DmMsg`
call, a poll of the request handler, or an acknowledgment delivery. -/
inductive Cm2DmEvent where
  | post (msg_id data : Nat)
  | req
  | ack (a : cm2dmAck) (size : Nat)
deriving DecidableEq, Repr

/-- Apply one event to the sender state. -/
def cm2dmStep (s : Cm2DmMsgState) : Cm2DmEvent → Cm2DmMsgState
  | .post msg_id data => PostCm2DmMsg s msg_id data
  | .req => (Cm2DmMsgReqSmbusHandler s).1
  | .ack a size => (Cm2DmMsgAckSmbusHandler s a size).1

/-- Run a sequence of events. -/
def cm2dmRun (s : Cm2DmMsgState) : List Cm2DmEvent → Cm2DmMsgState
  | [] => s
  | e :: es => cm2dmRun (cm2dmStep s e) es

/-- Number of in-flight (sent but unacknowledged) messages recorded in the
state: the state has a single in-flight slot guarded by `curr_msg_valid`. -/
def inFlightCount (s : Cm2DmMsgState) : Nat :=
  if s.curr_msg_valid then 1 else 0

/-- Cursor evolution under repeated selections: starting from cursor `c`,
at step `n` the dispatcher selects from pending bitmap `f n` and the cursor
advances to `(chosen + 1) % kCm2DmMsgCount` as in `next_id_rr`. -/
def rrCursorSeq (c : Nat) (f : Nat → Nat) : Nat → Nat
  | 0 => c
  | n + 1 => (rrChoose (rrCursorSeq c f n) (f n) + 1) % kCm2DmMsgCount

/-- Specification-side selection, following the spec's words: the
lowest-index pending kind at or above the rotation cursor, or, if no
pending kind is at or above the cursor, the lowest-index pending kind
overall. -/
def rrChooseSpec (c p : Nat) : Nat :=
  let atOrAbove := ((List.range kCm2DmMsgCount).filter
    (fun i => decide (c ≤ i) && p.testBit i)).head?
  let overall := ((List.range kCm2DmMsgCount).filter (fun i => p.testBit i)).head?
  ((atOrAbove.orElse (fun _ => overall)).getD 0)

/-- A concrete sender state with one message in flight, used by witnesses. -/
def exampleInFlightState : Cm2DmMsgState :=
  { pending_messages := 0, next_id_rr := 2, next_seq_num := 1,
    curr_msg_valid := true, curr_msg := ⟨1, 0, 5⟩,
    next_msgs := List.replicate kCm2DmMsgCount 0 }

/-! ### DMC receive loop (`app/dmc/src/main.c`, `process_cm2dm_message`) -/

/-- DMC-side per-chip state used by `process_cm2dm_message`: the
`chip->data.last_cm2dm_seq_num_valid` / `last_cm2dm_seq_num` dedup record
and the function-static `last_warned_seq_num` (initialized to
`UINT16_MAX`). -/
structure DmcChipState where
  last_cm2dm_seq_num_valid : Bool
  last_cm2dm_seq_num : Nat
  last_warned_seq_num : Nat
deriving DecidableEq, Repr

/-- DMC state at boot: dedup record invalid, `last_warned_seq_num`
initialized to `UINT16_MAX`. -/
def initDmcChipState : DmcChipState :=
  { last_cm2dm_seq_num_valid := false, last_cm2dm_seq_num := 0,
    last_warned_seq_num := 65535 }

/-- Observable outcome of one `process_cm2dm_message` run: final chip
state, the kind-specific handler invocations `(msg_id, data)` in order,
the acknowledgments sent back, and the duplicate warnings logged. -/
structure DmcRunResult where
  chip : DmcChipState
  calls : List (Nat × Nat)
  acks : List cm2dmAck
  warns : List Nat
deriving DecidableEq, Repr

/-- Modelled from the spec: `bh_chip_get_cm2dm_message` (in
`lib/tenstorrent/bh_chip`, not under `src/`) fetches the next CM2DM
message over SMBus and, for every non-null message fetched, writes back an
acknowledgment `{msg_id, seq_num}` so the sender can retire it — the spec
requires an ack to be sent even for duplicate deliveries.  Here the
transport is a list of incoming messages: fetching pops the head, and an
empty list behaves as the sender's null message. -/
def fetchCm2DmMessage (msgs : List cm2dmMessage) :
    cm2dmMessage × List cm2dmMessage × List cm2dmAck :=
  match msgs with
  | [] => (zeroMsg, [], [])
  | m :: rest =>
    if m.msg_id = kCm2DmMsgIdNull then (m, rest, [])
    else (m, rest, [⟨m.msg_id, m.seq_num⟩])

/-- One bounded pass of the `for (i = 0; i < kCm2DmMsgCount; i++)` loop of
`process_cm2dm_message`: fetch a message (acknowledging it), break on a
null message, skip the kind-specific handler on a duplicate `seq_num`
(warning at most once per value), and otherwise record the new `seq_num`
and invoke the handler.  `procBreak` gives the boolean result of the
`msg_processors[msg_id]` table entry (whether to break out of the loop);
entries exist for ids `1 ≤ msg_id < kCm2DmMsgCount`. -/
def processCm2DmIter (procBreak : Nat → Nat → Bool) :
    Nat → DmcChipState → List cm2dmMessage → List (Nat × Nat) → List cm2dmAck →
    List Nat → DmcRunResult
  | 0, chip, _, calls, acks, warns => ⟨chip, calls, acks, warns⟩
  | fuel + 1, chip, msgs, calls, acks, warns =>
    let f := fetchCm2DmMessage msgs
    let m := f.1
    let rest := f.2.1
    let acks := acks ++ f.2.2
    if m.msg_id = kCm2DmMsgIdNull then
      ⟨chip, calls, acks, warns⟩
    else if chip.last_cm2dm_seq_num_valid ∧ chip.last_cm2dm_seq_num = m.seq_num then
      if m.seq_num ≠ chip.last_warned_seq_num then
        processCm2DmIter procBreak fuel { chip with last_warned_seq_num := m.seq_num }
          rest calls acks (warns ++ [m.seq_num])
      else
        processCm2DmIter procBreak fuel chip rest calls acks warns
    else
      let chip := { chip with last_cm2dm_seq_num_valid := true,
                              last_cm2dm_seq_num := m.seq_num }
      if m.msg_id < kCm2DmMsgCount then
        let calls := calls ++ [(m.msg_id, m.data)]
        if procBreak m.msg_id m.data then ⟨chip, calls, acks, warns⟩
        else processCm2DmIter procBreak fuel chip rest calls acks warns
      else
        processCm2DmIter procBreak fuel chip rest calls acks warns

/-- `process_cm2dm_message`: at most `kCm2DmMsgCount` iterations. -/
def process_cm2dm_message (procBreak : Nat → Nat → Bool) (chip : DmcChipState)
    (msgs : List cm2dmMessage) : DmcRunResult :=
  processCm2DmIter procBreak kCm2DmMsgCount chip msgs [] [] []

/-! ### NOC coordinate translation (`lib/tenstorrent/bh_arc/noc_init.c`) -/

/-- Modelled from the spec: `NOC_X_SIZE` comes from `noc.h`, which is not
under `src/`; the spec's data model gives the per-ring table as
`logical_coord[17][12]`, i.e. a 17-column grid. -/
def NOC_X_SIZE : Nat := 17

/-- Modelled from the spec: `NOC_Y_SIZE` comes from `noc.h`, which is not
under `src/`; the spec's data model gives the per-ring table as
`logical_coord[17][12]`, i.e. a 12-row grid. -/
def NOC_Y_SIZE : Nat := 12

/-- `PRE_TRANSLATION_SIZE` (noc_init.c): 32 pre-translation coordinates. -/
def PRE_TRANSLATION_SIZE : Nat := 32

/-- Modelled from the spec: `NUM_GDDR` comes from `gddr.h`, which is not
under `src/`; there are 8 GDDR instances (4 west + 4 east, and
`InitNocTranslationFromHarvesting` maps a fully-enabled 8-bit
`gddr_enabled` mask to the sentinel). -/
def NUM_GDDR : Nat := 8

/-- Modelled from the spec: `NO_BAD_GDDR` comes from a header not under
`src/`; it is the "no bad gddr" sentinel — an out-of-range `uint8_t`
channel id (`0xFF`), distinct from every valid id and `≥ 4` so that
`ComputeNocTranslation` takes the all-GDDR-good branch. -/
def NO_BAD_GDDR : Nat := 0xFF

/-- `EINVAL` errno value. -/
def EINVAL : Nat := 22

/-- Pointwise functional update, modelling an array store. -/
def upd (f : Nat → Nat) (i v : Nat) : Nat → Nat := fun j => if j = i then v else f j

/-- `struct NocTranslation` (noc_init.c).  The `uint8_t` translation
tables and the `uint16_t` logical-coordinate table are total functions on
indices; the single-word masks are `Nat`. -/
structure NocTranslation where
  translate_en : Bool
  translate_table_x : Nat → Nat
  translate_table_y : Nat → Nat
  translate_col_mask : Nat
  translate_row_mask : Nat
  logical_coords : Nat → Nat → Nat

/-- `SetLogicalCoord`: store `(logical_y << 6) | logical_x` (truncated to
`uint16_t`) at `logical_coords[post_x][post_y]`. -/
def SetLogicalCoord (nt : NocTranslation) (post_x post_y logical_x logical_y : Nat) :
    NocTranslation :=
  { nt with logical_coords := fun px py =>
      if px = post_x ∧ py = post_y then ((logical_y <<< 6) ||| logical_x) % 2 ^ 16
      else nt.logical_coords px py }

/-- `MakeIdentity`: zero the structure, enable translation, make both
tables the identity on the grid (0 above it), and set every
logical coordinate to its own position. -/
def MakeIdentity : NocTranslation :=
  { translate_en := true,
    translate_table_x := fun i => if i < NOC_X_SIZE then i else 0,
    translate_table_y := fun i => if i < NOC_Y_SIZE then i else 0,
    translate_col_mask := 0,
    translate_row_mask := 0,
    logical_coords := fun x y =>
      if x < NOC_X_SIZE ∧ y < NOC_Y_SIZE then ((y <<< 6) ||| x) % 2 ^ 16 else 0 }

/-- Inclusive range `[a..b]` as a list. -/
def rangeIncl (a b : Nat) : List Nat := (List.range (b + 1 - a)).map (a + ·)

/-- `ApplyLogicalCoords`: for every pre-translation coordinate in the given
box whose translated position lands in the post box, record the inverse
mapping `logical_coords[post] = pre`.  The translation tables themselves
are left untouched. -/
def ApplyLogicalCoords (nt0 : NocTranslation)
    (post_x_start post_y_start post_x_end post_y_end : Nat)
    (pre_x_start pre_y_start pre_x_end pre_y_end : Nat) : NocTranslation :=
  (rangeIncl pre_x_start pre_x_end).foldl (fun nt pre_x =>
    let post_x := nt.translate_table_x pre_x
    if post_x < post_x_start ∨ post_x > post_x_end then nt
    else (rangeIncl pre_y_start pre_y_end).foldl (fun nt' pre_y =>
      let post_y := nt'.translate_table_y pre_y
      if post_y < post_y_start ∨ post_y > post_y_end then nt'
      else SetLogicalCoord nt' post_x post_y pre_x pre_y) nt) nt0

/-- The inner fold of `ApplyLogicalCoords` (the `pre_y` loop at a fixed
`pre_x`), named so it can be reasoned about by induction on the list. -/
def applyInner (pys pye post_x pre_x : Nat) (L : List Nat) (nt : NocTranslation) :
    NocTranslation :=
  L.foldl (fun nt' pre_y =>
    let post_y := nt'.translate_table_y pre_y
    if post_y < pys ∨ post_y > pye then nt'
    else SetLogicalCoord nt' post_x post_y pre_x pre_y) nt

/-- The outer fold of `ApplyLogicalCoords` (the `pre_x` loop);
`ApplyLogicalCoords nt … = applyOuter … (rangeIncl xs xe) nt` holds by
definitional unfolding. -/
def applyOuter (pxs pys pxe pye ys ye : Nat) (L : List Nat) (nt : NocTranslation) :
    NocTranslation :=
  L.foldl (fun nt1 pre_x =>
    let post_x := nt1.translate_table_x pre_x
    if post_x < pxs ∨ post_x > pxe then nt1
    else applyInner pys pye post_x pre_x (rangeIncl ys ye) nt1) nt

/-- X coordinate of `tensix_with_l1[i][j]` (for all `j`) and `tt_eth_ss[i]`. -/
def kTensixEthNoc0X : List Nat := [1, 16, 2, 15, 3, 14, 4, 13, 5, 12, 6, 11, 7, 10]

/-- Y coordinate of `l2cpu_ss_inst[i]`-P1. -/
def kL2CpuNoc0Y : List Nat := [3, 9, 5, 7]

/-- Y coordinates of `GDDR[i]` and `GDDR[i+4]`. -/
def kGddrY : List (List Nat) := [[0, 1, 11], [2, 10, 3], [9, 4, 8], [5, 7, 6]]

/-- The initial good-column NOC-0 X bitmap: `GENMASK(7,1) | GENMASK(16,10)`
with the NOC-0 X bit of every bad tensix column cleared. -/
def goodTensixNoc0X (bad_tensix_cols : Nat) : Nat :=
  (List.range 14).foldl (fun good i =>
    if bad_tensix_cols.testBit i then clearBit32 good (kTensixEthNoc0X.getD i 0)
    else good)
    (GENMASK 7 1 ||| GENMASK 16 10)

/-- The two good-column compaction loops of `ComputeNocTranslation`: for
each slot in order, while the mask is non-empty, pop the lowest set bit
(`LSB_GET` / `LOG2`) and assign its index to the slot. -/
def popAssign (slots : List Nat) (ttx : Nat → Nat) (m : Nat) : (Nat → Nat) × Nat :=
  match slots with
  | [] => (ttx, m)
  | s :: rest =>
    if m ≠ 0 then
      let lsb := LSB_GET m
      popAssign rest (upd ttx s (LOG2 lsb)) (m &&& (MASK32 ^^^ lsb))
    else (ttx, m)

/-- The bad-column loop: for slots `16` down to `10`, while bad columns
remain, pop the lowest bad column index and assign its NOC-0 X
coordinate. -/
def popAssignBad (slots : List Nat) (ttx : Nat → Nat) (bad : Nat) :
    (Nat → Nat) × Nat :=
  match slots with
  | [] => (ttx, bad)
  | s :: rest =>
    if bad ≠ 0 then
      let lsb := LSB_GET bad
      popAssignBad rest (upd ttx s (kTensixEthNoc0X.getD (LOG2 lsb) 0))
        (bad &&& (MASK32 ^^^ lsb))
    else (ttx, bad)

/-- `CopyBytesSkipIndices(out + outPos, in, count, skip_mask)`: copy
`count` bytes from `inList` (advancing the input cursor every step) into
consecutive output slots, skipping inputs whose `skip_mask` bit is set. -/
def CopyBytesSkipIndices (out : Nat → Nat) (outPos : Nat) (inList : List Nat)
    (inPos count skip_mask : Nat) : Nat → Nat :=
  if count = 0 then out
  else if skip_mask &&& 1 ≠ 0 then
    CopyBytesSkipIndices out outPos inList (inPos + 1) count (skip_mask / 2)
  else
    CopyBytesSkipIndices (upd out outPos (inList.getD inPos 0)) (outPos + 1)
      inList (inPos + 1) (count - 1) (skip_mask / 2)
termination_by count + skip_mask
decreasing_by
  · simp only [Nat.and_one_is_mod] at *
    omega
  · omega

/-- Tensix-column phase of `ComputeNocTranslation` (tables only): build the
good-column mask, compact good columns into slots `1..7` then `10..16`,
then place bad columns from slot `16` downward. -/
def nocTensixTables (nt : NocTranslation) (bad_tensix_cols : Nat) : NocTranslation :=
  let good := goodTensixNoc0X bad_tensix_cols
  let p1 := popAssign [1, 2, 3, 4, 5, 6, 7] nt.translate_table_x good
  let p2 := popAssign [10, 11, 12, 13, 14, 15, 16] p1.1 p1.2
  let p3 := popAssignBad [16, 15, 14, 13, 12, 11, 10] p2.1 bad_tensix_cols
  { nt with translate_table_x := p3.1 }

/-- `gddr_y_order`: start from `{0,1,2,3}`; if there is a bad GDDR, shift
the later rows down (`memmove`) and put the bad row last. -/
def gddrYOrder (bad_gddr : Nat) : List Nat :=
  if bad_gddr ≠ NO_BAD_GDDR then
    let r := bad_gddr % 4
    (List.take r [0, 1, 2, 3] ++ List.drop (r + 1) [0, 1, 2, 3]) ++ [r]
  else [0, 1, 2, 3]

/-- Write the GDDR Y coordinates: `translate_table_y[12 + gddr*3 .. 14 + gddr*3] =
kGddrY[gddr_y_order[gddr]]`. -/
def writeGddrY (tty : Nat → Nat) (order : List Nat) : Nat → Nat :=
  (List.range 4).foldl (fun t g =>
    (List.range 3).foldl (fun t' j =>
      upd t' (12 + g * 3 + j) ((kGddrY.getD (order.getD g 0) []).getD j 0)) t) tty

/-- GDDR phase (tables only): pick west/east column order depending on
which half holds the bad channel, then lay out the row order. -/
def nocGddrTables (nt : NocTranslation) (bad_gddr : Nat) : NocTranslation :=
  let nt :=
    if bad_gddr ≥ 4 then
      { nt with translate_table_x := upd (upd nt.translate_table_x 17 0) 18 9 }
    else
      { nt with translate_table_x := upd (upd nt.translate_table_x 17 9) 18 0 }
  { nt with translate_table_y := writeGddrY nt.translate_table_y (gddrYOrder bad_gddr) }

/-- PCIE endpoint X coordinate: instance 1 sits at X=11, instance 0 at X=2. -/
def pcieX (pcie_instance : Nat) : Nat := if pcie_instance ≠ 0 then 11 else 2

/-- PCIE phase (tables only): `19-24 => pcie_x-0`. -/
def nocPcieTables (nt : NocTranslation) (pcie_instance : Nat) : NocTranslation :=
  { nt with translate_table_x := upd nt.translate_table_x 19 (pcieX pcie_instance),
            translate_table_y := upd nt.translate_table_y 24 0 }

/-- Ethernet phase (tables only): `translate_table_y[25] = 1` and compact
the ethernet X coordinates into slots `20..31`, skipping `skip_eth`. -/
def nocEthTables (nt : NocTranslation) (skip_eth : Nat) : NocTranslation :=
  { nt with translate_table_y := upd nt.translate_table_y 25 1,
            translate_table_x :=
              CopyBytesSkipIndices nt.translate_table_x 20 kTensixEthNoc0X 0 12 skip_eth }

/-- L2CPU phase (tables only): `8-26,27,28,29 => 8-3,9,5,7`. -/
def nocL2CpuTables (nt : NocTranslation) : NocTranslation :=
  let tty := (List.range 4).foldl
    (fun t j => upd t (26 + j) (kL2CpuNoc0Y.getD j 0)) nt.translate_table_y
  { nt with translate_table_y := tty }

/-- Security phase (tables only): `8-30 => 8-2`. -/
def nocSecurityTables (nt : NocTranslation) : NocTranslation :=
  { nt with translate_table_y := upd nt.translate_table_y 30 2 }

/-- Stage 0 of `ComputeNocTranslation`: identity plus the column-translation
row mask (`BIT(0) | BIT(1)`, blocking column translation outside Tensix
rows). -/
def nocStage0 : NocTranslation :=
  { MakeIdentity with
    translate_row_mask := MakeIdentity.translate_row_mask ||| (BIT 0 ||| BIT 1) }

/-- Stage 1: tensix column tables. -/
def nocStage1 (bad_tensix_cols : Nat) : NocTranslation :=
  nocTensixTables nocStage0 bad_tensix_cols

/-- Stage 1 after the two tensix `ApplyLogicalCoords` calls. -/
def nocStage1A (bad_tensix_cols : Nat) : NocTranslation :=
  ApplyLogicalCoords (ApplyLogicalCoords (nocStage1 bad_tensix_cols)
    1 2 7 11 1 2 16 11) 10 2 16 11 1 2 16 11

/-- Stage 2: GDDR tables. -/
def nocStage2 (bad_tensix_cols bad_gddr : Nat) : NocTranslation :=
  nocGddrTables (nocStage1A bad_tensix_cols) bad_gddr

/-- Stage 2 after the two GDDR `ApplyLogicalCoords` calls. -/
def nocStage2A (bad_tensix_cols bad_gddr : Nat) : NocTranslation :=
  ApplyLogicalCoords (ApplyLogicalCoords (nocStage2 bad_tensix_cols bad_gddr)
    0 0 0 11 17 12 17 23) 9 0 9 11 17 12 17 23

/-- Stage 3: PCIE tables. -/
def nocStage3 (bad_tensix_cols bad_gddr pcie_instance : Nat) : NocTranslation :=
  nocPcieTables (nocStage2A bad_tensix_cols bad_gddr) pcie_instance

/-- Stage 3 after the PCIE `ApplyLogicalCoords` call. -/
def nocStage3A (bad_tensix_cols bad_gddr pcie_instance : Nat) : NocTranslation :=
  ApplyLogicalCoords (nocStage3 bad_tensix_cols bad_gddr pcie_instance)
    (pcieX pcie_instance) 0 (pcieX pcie_instance) 0 19 24 19 24

/-- Stage 4: ethernet tables. -/
def nocStage4 (bad_tensix_cols bad_gddr pcie_instance skip_eth : Nat) : NocTranslation :=
  nocEthTables (nocStage3A bad_tensix_cols bad_gddr pcie_instance) skip_eth

/-- Stage 4 after the two ethernet `ApplyLogicalCoords` calls. -/
def nocStage4A (bad_tensix_cols bad_gddr pcie_instance skip_eth : Nat) : NocTranslation :=
  ApplyLogicalCoords (ApplyLogicalCoords
    (nocStage4 bad_tensix_cols bad_gddr pcie_instance skip_eth)
    1 1 7 1 20 25 31 25) 10 1 16 1 20 25 31 25

/-- Stage 5: L2CPU tables. -/
def nocStage5 (bad_tensix_cols bad_gddr pcie_instance skip_eth : Nat) : NocTranslation :=
  nocL2CpuTables (nocStage4A bad_tensix_cols bad_gddr pcie_instance skip_eth)

/-- Stage 5 after the L2CPU `ApplyLogicalCoords` call. -/
def nocStage5A (bad_tensix_cols bad_gddr pcie_instance skip_eth : Nat) : NocTranslation :=
  ApplyLogicalCoords (nocStage5 bad_tensix_cols bad_gddr pcie_instance skip_eth)
    8 3 8 9 8 26 8 29

/-- Stage 6: security tables. -/
def nocStage6 (bad_tensix_cols bad_gddr pcie_instance skip_eth : Nat) : NocTranslation :=
  nocSecurityTables (nocStage5A bad_tensix_cols bad_gddr pcie_instance skip_eth)

/-- `ComputeNocTranslation` (noc_init.c): compute the NOC-0 translation
structure for the given harvesting inputs. -/
def ComputeNocTranslation (pcie_instance bad_tensix_cols bad_gddr skip_eth : Nat) :
    NocTranslation :=
  ApplyLogicalCoords (nocStage6 bad_tensix_cols bad_gddr pcie_instance skip_eth)
    8 2 8 2 8 30 8 30

/-- `CopyNoc0ToNoc1`: ring 1 is the point reflection of ring 0 through the
grid center; table entries are stored as `uint8_t` (hence `% 256` for the
out-of-range case). -/
def CopyNoc0ToNoc1 (noc0 : NocTranslation) : NocTranslation :=
  { noc0 with
    translate_table_x := fun i =>
      if i < PRE_TRANSLATION_SIZE then
        (NOC_X_SIZE + 256 - noc0.translate_table_x i - 1) % 256
      else noc0.translate_table_x i,
    translate_table_y := fun i =>
      if i < PRE_TRANSLATION_SIZE then
        (NOC_Y_SIZE + 256 - noc0.translate_table_y i - 1) % 256
      else noc0.translate_table_y i,
    logical_coords := fun x y =>
      if x < NOC_X_SIZE ∧ y < NOC_Y_SIZE then
        noc0.logical_coords (NOC_X_SIZE - x - 1) (NOC_Y_SIZE - y - 1)
      else noc0.logical_coords x y }

/-- The pure core of `InitNocTranslation`: the ring-0 table is computed
and the ring-1 table is derived from it by `CopyNoc0ToNoc1`, never
recomputed independently. -/
def InitNocTranslationTables (pcie_instance bad_tensix_cols bad_gddr skip_eth : Nat) :
    NocTranslation × NocTranslation :=
  let noc0 := ComputeNocTranslation pcie_instance bad_tensix_cols bad_gddr skip_eth
  (noc0, CopyNoc0ToNoc1 noc0)

/-- Indices of the set bits of `m` below `n`, in ascending order
(specification-side view of a bitmap as a sorted list). -/
def bitsList (n m : Nat) : List Nat := (List.range n).filter (fun i => m.testBit i)

/-- Apply a list of array stores `(index, value)` in order. -/
def writes (f : Nat → Nat) (ps : List (Nat × Nat)) : Nat → Nat :=
  ps.foldl (fun g p => upd g p.1 p.2) f

/-- Round-trip property at a physical position: decoding the stored
logical coordinate (`pre_x = lc % 64`, `pre_y = lc / 64`, inverting
`SetLogicalCoord`'s packing) and applying the translation tables to it
yields the position back. -/
def roundtripAt (nt : NocTranslation) (px py : Nat) : Prop :=
  nt.translate_table_x (nt.logical_coords px py % 64) = px ∧
  nt.translate_table_y (nt.logical_coords px py / 64) = py

/-- Round trip together with interval bounds on the decoded
pre-translation coordinate (the invariant carried across the phases of
`ComputeNocTranslation`). -/
def RTB (nt : NocTranslation) (px py xlo xhi ylo yhi : Nat) : Prop :=
  roundtripAt nt px py ∧
  xlo ≤ nt.logical_coords px py % 64 ∧ nt.logical_coords px py % 64 ≤ xhi ∧
  ylo ≤ nt.logical_coords px py / 64 ∧ nt.logical_coords px py / 64 ≤ yhi

/-- Whether an `ApplyLogicalCoords` call with the given boxes, on tables
`nt`, writes the logical coordinate of physical position `(px, py)`:
some pre-translation coordinate of the pre box translates to `(px, py)`
and `(px, py)` lies in the post box. -/
def appliedIn (nt : NocTranslation)
    (pxs pys pxe pye xs ys xe ye px py : Nat) : Bool :=
  (rangeIncl xs xe).any (fun pre_x =>
    (rangeIncl ys ye).any (fun pre_y =>
      nt.translate_table_x pre_x == px && nt.translate_table_y pre_y == py &&
      decide (pxs ≤ px) && decide (px ≤ pxe) &&
      decide (pys ≤ py) && decide (py ≤ pye)))

/-- Whether the logical coordinate at `(px, py)` is set by (at least one
of) the eleven `ApplyLogicalCoords` calls of `ComputeNocTranslation`,
each evaluated at the table state in effect at that call. -/
def nocApplied (pcie_instance bad_tensix_cols bad_gddr skip_eth px py : Nat) : Bool :=
  appliedIn (nocStage1 bad_tensix_cols) 1 2 7 11 1 2 16 11 px py ||
  appliedIn (ApplyLogicalCoords (nocStage1 bad_tensix_cols) 1 2 7 11 1 2 16 11)
    10 2 16 11 1 2 16 11 px py ||
  appliedIn (nocStage2 bad_tensix_cols bad_gddr) 0 0 0 11 17 12 17 23 px py ||
  appliedIn (ApplyLogicalCoords (nocStage2 bad_tensix_cols bad_gddr)
    0 0 0 11 17 12 17 23) 9 0 9 11 17 12 17 23 px py ||
  appliedIn (nocStage3 bad_tensix_cols bad_gddr pcie_instance)
    (pcieX pcie_instance) 0 (pcieX pcie_instance) 0 19 24 19 24 px py ||
  appliedIn (nocStage4 bad_tensix_cols bad_gddr pcie_instance skip_eth)
    1 1 7 1 20 25 31 25 px py ||
  appliedIn (ApplyLogicalCoords
    (nocStage4 bad_tensix_cols bad_gddr pcie_instance skip_eth) 1 1 7 1 20 25 31 25)
    10 1 16 1 20 25 31 25 px py ||
  appliedIn (nocStage5 bad_tensix_cols bad_gddr pcie_instance skip_eth)
    8 3 8 9 8 26 8 29 px py ||
  appliedIn (nocStage6 bad_tensix_cols bad_gddr pcie_instance skip_eth)
    8 2 8 2 8 30 8 30 px py

/-! ### Debug NOC-translation command handler (`debug_noc_translation_handler`) -/

/-- The side-effecting NOC reprogramming operations the handler can invoke,
in order: `ClearNocTranslation`, `ProgramBroadcastExclusion`,
`InitNocTranslation`.  The handler's effect on the NOC configuration is
the list of operations it performs. -/
inductive NocAction where
  | clearTranslation
  | programBroadcastExclusion (disabled_tensix_columns : Nat)
  | initTranslation (pcie_instance bad_tensix_cols bad_gddr skip_eth : Nat)
deriving DecidableEq, Repr

/-- Fields of the `TT_SMC_MSG_DEBUG_NOC_TRANSLATION` request
(`req->debug_noc_translation`). -/
structure DebugNocRequest where
  enable_translation : Bool
  pcie_instance : Nat
  pcie_instance_override : Bool
  bad_tensix_cols : Nat
  bad_gddr : Nat
  skip_eth_low : Nat
  skip_eth_hi : Nat
deriving DecidableEq, Repr

/-- `debug_noc_translation_handler`: validate `bad_gddr` (out-of-range
non-sentinel ids are rejected with `-EINVAL`, returned as a `uint8_t`,
before any NOC state is touched); otherwise clear translation, program
broadcast exclusion, and, when requested, recompute and program the
translation (the PCIE instance defaulting from the firmware table's
`pci1_property_table.pcie_mode` unless overridden).  Returns the list of
NOC operations performed plus the `uint8_t` status. -/
def debug_noc_translation_handler (fwPcie1IsEP : Bool) (req : DebugNocRequest) :
    List NocAction × Nat :=
  let skip_eth := req.skip_eth_low ||| (req.skip_eth_hi <<< 8)
  if req.bad_gddr ≥ NUM_GDDR ∧ req.bad_gddr ≠ NO_BAD_GDDR then
    ([], (256 - EINVAL) % 256)
  else
    let actions := [NocAction.clearTranslation,
      NocAction.programBroadcastExclusion req.bad_tensix_cols]
    if req.enable_translation then
      let pcie_instance :=
        if !req.pcie_instance_override then (if fwPcie1IsEP then 1 else 0)
        else req.pcie_instance
      (actions ++ [NocAction.initTranslation pcie_instance req.bad_tensix_cols
        req.bad_gddr skip_eth], 0)
    else
      (actions, 0)

/-! ### Basic facts about `ctz`, `LSB_GET`, `LOG2` -/

theorem ctz_odd {m : Nat} (h : m % 2 = 1) : ctz m = 0 := by
  rw [ctz]
  simp only [h]
  split <;> simp

theorem ctz_even {m : Nat} (h0 : m ≠ 0) (h : m % 2 = 0) : ctz m = ctz (m / 2) + 1 := by
  rw [ctz]
  simp [h0, h]

theorem testBit_ctz {m : Nat} (h : m ≠ 0) : m.testBit (ctz m) = true := by
  induction m using Nat.strong_induction_on with
  | _ m ih =>
    rcases Nat.even_or_odd m with he | ho
    · have hm2 : m % 2 = 0 := Nat.even_iff.mp he
      rw [ctz_even h hm2, Nat.testBit_add_one]
      exact ih (m / 2) (Nat.div_lt_self (Nat.pos_of_ne_zero h) one_lt_two)
        (by omega)
    · have hm2 : m % 2 = 1 := Nat.odd_iff.mp ho
      rw [ctz_odd hm2]
      simpa [Nat.testBit_zero] using hm2

theorem testBit_lt_ctz {m j : Nat} (h : j < ctz m) : m.testBit j = false := by
  induction m using Nat.strong_induction_on generalizing j with
  | _ m ih =>
    rcases Nat.eq_zero_or_pos m with rfl | hm
    · simp
    rcases Nat.even_or_odd m with he | ho
    · have hm2 : m % 2 = 0 := Nat.even_iff.mp he
      rw [ctz_even (by omega) hm2] at h
      match j with
      | 0 => simpa [Nat.testBit_zero] using hm2
      | j + 1 =>
        rw [Nat.testBit_add_one]
        exact ih (m / 2) (Nat.div_lt_self hm one_lt_two) (by omega)
    · have hm2 : m % 2 = 1 := Nat.odd_iff.mp ho
      rw [ctz_odd hm2] at h
      omega

theorem ctz_lt_of_lt_two_pow {m n : Nat} (h0 : m ≠ 0) (h : m < 2 ^ n) : ctz m < n := by
  by_contra hc
  have : m.testBit (ctz m) = false :=
    Nat.testBit_lt_two_pow (lt_of_lt_of_le h (Nat.pow_le_pow_right (by norm_num) (by omega)))
  rw [testBit_ctz h0] at this
  simp at this

/-- Bits of `m - 1` for `m ≠ 0`: all bits strictly below `ctz m` are set,
bit `ctz m` is clear, and bits above agree with `m`. -/
theorem testBit_pred {m : Nat} (h : m ≠ 0) (j : Nat) :
    (m - 1).testBit j =
      (if j < ctz m then true else if j = ctz m then false else m.testBit j) := by
  induction m using Nat.strong_induction_on generalizing j with
  | _ m ih =>
    rcases Nat.even_or_odd m with he | ho
    · have hm2 : m % 2 = 0 := Nat.even_iff.mp he
      have hq : m / 2 ≠ 0 := by omega
      rw [ctz_even h hm2]
      match j with
      | 0 =>
        have : (m - 1) % 2 = 1 := by omega
        simp [Nat.testBit_zero, this]
      | j + 1 =>
        have hdiv : (m - 1) / 2 = m / 2 - 1 := by omega
        rw [Nat.testBit_add_one, hdiv, ih (m / 2) (Nat.div_lt_self (by omega) one_lt_two) hq j,
          Nat.testBit_add_one]
        rcases lt_trichotomy j (ctz (m / 2)) with hlt | heq | hgt
        · simp [hlt, Nat.lt_add_one_iff.mpr (le_of_lt hlt)]
        · simp [heq]
        · have h1 : ¬ j < ctz (m / 2) := by omega
          have h2 : j ≠ ctz (m / 2) := by omega
          have h3 : ¬ j + 1 < ctz (m / 2) + 1 := by omega
          have h4 : j + 1 ≠ ctz (m / 2) + 1 := by omega
          simp [h1, h2, h3, h4]
    · have hm2 : m % 2 = 1 := Nat.odd_iff.mp ho
      rw [ctz_odd hm2]
      match j with
      | 0 =>
        have : (m - 1) % 2 = 0 := by omega
        simp [Nat.testBit_zero, this]
      | j + 1 =>
        have hdiv : (m - 1) / 2 = m / 2 := by omega
        rw [Nat.testBit_add_one, hdiv, Nat.testBit_add_one]
        simp

/-- Bits of `2^n - m` for `0 < m ≤ 2^n` (two's-complement negation within
`n` bits): `2^n - m = ((2^n - 1) - (m - 1))`, i.e. complement of `m - 1`. -/
theorem testBit_two_pow_sub {n m j : Nat} (h0 : m ≠ 0) (h : m ≤ 2 ^ n) :
    (2 ^ n - m).testBit j = ((2 ^ n - 1 - (m - 1)).testBit j) := by
  have : 2 ^ n - m = 2 ^ n - 1 - (m - 1) := by omega
  rw [this]

/-- `(2^n - 1) - a = (2^n - 1) ^^^ a` for `a < 2^n` (subtraction from an
all-ones mask never borrows). -/
theorem mask_sub_eq_xor : ∀ (n : Nat) (a : Nat), a < 2 ^ n →
    2 ^ n - 1 - a = (2 ^ n - 1) ^^^ a := by
  intro n
  induction n with
  | zero => intro a ha; interval_cases a; rfl
  | succ n ih =>
    intro a ha
    have hb : a / 2 < 2 ^ n := by
      have : 2 ^ (n + 1) = 2 * 2 ^ n := by ring
      omega
    apply Nat.eq_of_testBit_eq
    intro j
    have key : 2 ^ (n + 1) - 1 - a = 2 * (2 ^ n - 1 - a / 2) + (1 - a % 2) := by
      have h2 : 2 ^ (n + 1) = 2 * 2 ^ n := by ring
      omega
    match j with
    | 0 =>
      rw [key]
      have hl : (2 * (2 ^ n - 1 - a / 2) + (1 - a % 2)) % 2 = 1 - a % 2 := by omega
      have hr : ((2 ^ (n + 1) - 1) ^^^ a).testBit 0 =
          (((2 ^ (n + 1) - 1).testBit 0) != a.testBit 0) := Nat.testBit_xor ..
      rw [hr, Nat.testBit_two_pow_sub_one]
      simp only [Nat.testBit_zero, hl]
      have := Nat.mod_two_eq_zero_or_one a
      rcases this with h | h <;> simp [h]
    | j + 1 =>
      rw [key]
      have hstep : (2 * (2 ^ n - 1 - a / 2) + (1 - a % 2)) / 2 = 2 ^ n - 1 - a / 2 := by
        omega
      rw [Nat.testBit_add_one, hstep, ih (a / 2) hb,
        show ((2 ^ (n + 1) - 1) ^^^ a).testBit (j + 1) =
          (((2 ^ (n + 1) - 1).testBit (j + 1)) != a.testBit (j + 1)) from Nat.testBit_xor ..]
      have hiff : (j + 1 < n + 1) ↔ (j < n) := by omega
      rw [Nat.testBit_xor, Nat.testBit_two_pow_sub_one, Nat.testBit_two_pow_sub_one,
        Nat.testBit_add_one a j]
      simp [hiff]

/-- Characterization of `LSB_GET`: for `0 < m < 2^32` it is exactly
`2 ^ ctz m`. -/
theorem LSB_GET_eq {m : Nat} (h0 : m ≠ 0) (h : m < 2 ^ 32) :
    LSB_GET m = 2 ^ ctz m := by
  have hle : m ≤ 2 ^ 32 := le_of_lt h
  have hm1 : m - 1 < 2 ^ 32 := by omega
  apply Nat.eq_of_testBit_eq
  intro j
  rw [LSB_GET, Nat.testBit_land, testBit_two_pow_sub h0 hle, mask_sub_eq_xor 32 (m - 1) hm1,
    Nat.testBit_xor, Nat.testBit_two_pow_sub_one, testBit_pred h0]
  have hctz : ctz m < 32 := ctz_lt_of_lt_two_pow h0 h
  rcases lt_trichotomy j (ctz m) with hlt | heq | hgt
  · have : m.testBit j = false := testBit_lt_ctz hlt
    simp [this, hlt, Nat.testBit_two_pow_of_ne (show ctz m ≠ j by omega)]
  · subst heq
    simp [testBit_ctz h0, hctz, Nat.testBit_two_pow_self]
  · have h1 : ¬ j < ctz m := by omega
    have h2 : j ≠ ctz m := by omega
    by_cases hj32 : j < 32
    · simp [h1, h2, hj32, Nat.testBit_two_pow_of_ne (Ne.symm h2)]
    · have : m.testBit j = false :=
        Nat.testBit_lt_two_pow (lt_of_lt_of_le h (Nat.pow_le_pow_right (by norm_num) (by omega)))
      simp [h1, h2, hj32, this, Nat.testBit_two_pow_of_ne (Ne.symm h2)]

theorem LOG2_two_pow : ∀ k < 32, LOG2 (2 ^ k) = k := by decide

/-- `LOG2 (LSB_GET m) = ctz m` for `0 < m < 2^32`: the C idiom
`LOG2(LSB_GET(x))` computes the index of the lowest set bit. -/
theorem LOG2_LSB_GET {m : Nat} (h0 : m ≠ 0) (h : m < 2 ^ 32) :
    LOG2 (LSB_GET m) = ctz m := by
  rw [LSB_GET_eq h0 h]
  exact LOG2_two_pow _ (ctz_lt_of_lt_two_pow h0 h)

/-- C1: at most one CM2DM message is in flight at any instant; a pending
kind is promoted to in-flight only by a request poll when no message is in
flight, and the in-flight record is cleared only by a matching
acknowledgment (and is otherwise never altered while in flight). -/
theorem cm2dm_at_most_one_in_flight :
    (∀ (s0 : Cm2DmMsgState) (tr : List Cm2DmEvent),
      inFlightCount (cm2dmRun s0 tr) ≤ 1) ∧
    (∀ (s : Cm2DmMsgState) (e : Cm2DmEvent), s.curr_msg_valid = true →
      (cm2dmStep s e).curr_msg_valid = true → (cm2dmStep s e).curr_msg = s.curr_msg) ∧
    (∀ (s : Cm2DmMsgState) (e : Cm2DmEvent), s.curr_msg_valid = true →
      (cm2dmStep s e).curr_msg_valid = false →
      ∃ a size, e = .ack a size ∧ a.msg_id = s.curr_msg.msg_id ∧
        a.seq_num = s.curr_msg.seq_num) ∧
    (∀ (s : Cm2DmMsgState) (e : Cm2DmEvent), s.curr_msg_valid = false →
      (cm2dmStep s e).curr_msg_valid = true →
      e = .req ∧ s.pending_messages ≠ 0) := by
  refine ⟨?_, ?_, ?_, ?_⟩
  · intro s0 tr
    unfold inFlightCount
    split <;> simp
  · intro s e hv hv'
    cases e with
    | post msg_id data => rfl
    | req => simp [cm2dmStep, Cm2DmMsgReqSmbusHandler, hv]
    | ack a size =>
      simp only [cm2dmStep, Cm2DmMsgAckSmbusHandler] at hv' ⊢
      split_ifs at hv' ⊢ <;> simp_all
  · intro s e hv hv'
    cases e with
    | post msg_id data =>
      simp only [cm2dmStep, PostCm2DmMsg] at hv'
      simp [hv] at hv'
    | req =>
      simp only [cm2dmStep, Cm2DmMsgReqSmbusHandler, hv] at hv'
      simp [hv] at hv'
    | ack a size =>
      by_cases h1 : size ≠ 2
      · simp [cm2dmStep, Cm2DmMsgAckSmbusHandler, h1] at hv'
        simp [hv] at hv'
      · by_cases h2 : s.curr_msg_valid = true ∧ a.msg_id = s.curr_msg.msg_id ∧
            a.seq_num = s.curr_msg.seq_num
        · exact ⟨a, size, rfl, h2.2.1, h2.2.2⟩
        · simp only [cm2dmStep, Cm2DmMsgAckSmbusHandler, if_neg (not_not_intro h1),
            if_neg h2] at hv'
          simp [hv] at hv'
  · intro s e hv hv'
    cases e with
    | post msg_id data =>
      simp only [cm2dmStep, PostCm2DmMsg] at hv'
      simp [hv] at hv'
    | req =>
      by_cases h2 : s.pending_messages ≠ 0
      · exact ⟨rfl, h2⟩
      · simp only [cm2dmStep, Cm2DmMsgReqSmbusHandler, hv, if_neg h2] at hv'
        simp [hv] at hv'
    | ack a size =>
      by_cases h1 : size ≠ 2
      · simp [cm2dmStep, Cm2DmMsgAckSmbusHandler, h1] at hv'
        simp [hv] at hv'
      · by_cases h2 : s.curr_msg_valid = true ∧ a.msg_id = s.curr_msg.msg_id ∧
            a.seq_num = s.curr_msg.seq_num
        · exact absurd h2.1 (by simp [hv])
        · simp only [cm2dmStep, Cm2DmMsgAckSmbusHandler, if_neg (not_not_intro h1),
            if_neg h2] at hv'
          simp [hv] at hv'

/-- Witness for C1 at a concrete in-flight state and matching ack event. -/
theorem cm2dm_at_most_one_in_flight_witness :
    inFlightCount (cm2dmRun exampleInFlightState [.req, .ack ⟨1, 0⟩ 2]) ≤ 1 ∧
    (∃ a size, (Cm2DmEvent.ack ⟨1, 0⟩ 2) = .ack a size ∧
      a.msg_id = exampleInFlightState.curr_msg.msg_id ∧
      a.seq_num = exampleInFlightState.curr_msg.seq_num) :=
  ⟨cm2dm_at_most_one_in_flight.1 exampleInFlightState _,
   cm2dm_at_most_one_in_flight.2.2.1 exampleInFlightState (.ack ⟨1, 0⟩ 2)
     (by decide) (by decide)⟩

/-- C2: the acknowledgment handler clears the in-flight message iff the
ack's `msg_id` and `seq_num` both equal those of the current valid
message; on any mismatch or when nothing is in flight the state is left
completely unchanged and the same message remains exposed for
redelivery. -/
theorem cm2dm_ack_match_iff (s : Cm2DmMsgState) (a : cm2dmAck) :
    ((s.curr_msg_valid = true ∧ a.msg_id = s.curr_msg.msg_id ∧
        a.seq_num = s.curr_msg.seq_num) →
      Cm2DmMsgAckSmbusHandler s a 2 =
        ({ s with curr_msg_valid := false, curr_msg := zeroMsg }, 0)) ∧
    (¬(s.curr_msg_valid = true ∧ a.msg_id = s.curr_msg.msg_id ∧
        a.seq_num = s.curr_msg.seq_num) →
      Cm2DmMsgAckSmbusHandler s a 2 = (s, -1)) ∧
    (s.curr_msg_valid = true →
      ¬(a.msg_id = s.curr_msg.msg_id ∧ a.seq_num = s.curr_msg.seq_num) →
      (Cm2DmMsgReqSmbusHandler (Cm2DmMsgAckSmbusHandler s a 2).1).2 = s.curr_msg) := by
  refine ⟨?_, ?_, ?_⟩
  · intro h
    simp only [Cm2DmMsgAckSmbusHandler, if_neg (show ¬(2 ≠ 2) by omega), if_pos h]
  · intro h
    simp only [Cm2DmMsgAckSmbusHandler, if_neg (show ¬(2 ≠ 2) by omega), if_neg h]
  · intro hv hmm
    have hunch : (Cm2DmMsgAckSmbusHandler s a 2).1 = s := by
      have h : ¬(s.curr_msg_valid = true ∧ a.msg_id = s.curr_msg.msg_id ∧
          a.seq_num = s.curr_msg.seq_num) := fun hc => hmm ⟨hc.2.1, hc.2.2⟩
      simp only [Cm2DmMsgAckSmbusHandler, if_neg (show ¬(2 ≠ 2) by omega), if_neg h]
    rw [hunch]
    simp [Cm2DmMsgReqSmbusHandler, hv]

/-- Witness for C2 at a concrete in-flight state and mismatched ack. -/
theorem cm2dm_ack_match_iff_witness :
    Cm2DmMsgAckSmbusHandler exampleInFlightState ⟨1, 7⟩ 2 = (exampleInFlightState, -1) ∧
    (Cm2DmMsgReqSmbusHandler
      (Cm2DmMsgAckSmbusHandler exampleInFlightState ⟨1, 7⟩ 2).1).2 =
      exampleInFlightState.curr_msg :=
  ⟨(cm2dm_ack_match_iff exampleInFlightState ⟨1, 7⟩).2.1 (by decide),
   (cm2dm_ack_match_iff exampleInFlightState ⟨1, 7⟩).2.2 (by decide) (by decide)⟩

/-- C6: the outbound sequence number is an 8-bit counter, incremented
exactly once when a new pending message is promoted to in-flight (the
promoted message carries the pre-increment value and the counter wraps
modulo 256), and never changed by a re-exposing poll, a post, or an
acknowledgment. -/
theorem cm2dm_seq_num_discipline :
    (∀ s : Cm2DmMsgState, s.curr_msg_valid = false → s.pending_messages ≠ 0 →
      (Cm2DmMsgReqSmbusHandler s).1.next_seq_num = (s.next_seq_num + 1) % 256 ∧
      (Cm2DmMsgReqSmbusHandler s).2.seq_num = s.next_seq_num) ∧
    (∀ s : Cm2DmMsgState, s.curr_msg_valid = true →
      Cm2DmMsgReqSmbusHandler s = (s, s.curr_msg)) ∧
    (∀ s : Cm2DmMsgState, s.curr_msg_valid = false → s.pending_messages = 0 →
      Cm2DmMsgReqSmbusHandler s = (s, s.curr_msg)) ∧
    (∀ (s : Cm2DmMsgState) (k v : Nat),
      (PostCm2DmMsg s k v).next_seq_num = s.next_seq_num) ∧
    (∀ (s : Cm2DmMsgState) (a : cm2dmAck) (size : Nat),
      (Cm2DmMsgAckSmbusHandler s a size).1.next_seq_num = s.next_seq_num) := by
  refine ⟨?_, ?_, ?_, ?_, ?_⟩
  · intro s hv hp
    simp [Cm2DmMsgReqSmbusHandler, hv, hp, next_id_rr]
  · intro s hv
    simp [Cm2DmMsgReqSmbusHandler, hv]
  · intro s hv hp
    simp [Cm2DmMsgReqSmbusHandler, hv, hp]
  · intro s k v
    rfl
  · intro s a size
    simp only [Cm2DmMsgAckSmbusHandler]
    split
    · rfl
    · split
      · rfl
      · rfl

theorem BIT_eq_two_pow (i : Nat) : BIT i = 2 ^ i := Nat.one_shiftLeft i

theorem ctz_two_pow (k : Nat) : ctz (2 ^ k) = k := by
  induction k with
  | zero => simp [ctz]
  | succ k ih =>
    have h2 : (2:Nat) ^ (k + 1) = 2 * 2 ^ k := by ring
    have hne : (2:Nat) ^ (k + 1) ≠ 0 := by positivity
    rw [ctz_even hne (by omega), h2, Nat.mul_div_cancel_left _ (by norm_num), ih]

theorem MASK32_testBit (j : Nat) : MASK32.testBit j = decide (j < 32) :=
  Nat.testBit_two_pow_sub_one 32 j

/-- Clearing the only set bit of a one-bit mask yields zero. -/
theorem clearBit32_two_pow_self {k : Nat} (hk : k < 32) : clearBit32 (BIT k) k = 0 := by
  apply Nat.eq_of_testBit_eq
  intro j
  rw [clearBit32, Nat.testBit_land, Nat.testBit_xor, MASK32_testBit, BIT_eq_two_pow]
  by_cases hj : j = k
  · rw [hj]
    simp [Nat.testBit_two_pow_self, hk, Nat.zero_testBit]
  · simp [Nat.testBit_two_pow_of_ne (show k ≠ j from Ne.symm hj), Nat.zero_testBit]

/-- The round-robin choice on a one-bit pending bitmap returns that bit's
index, regardless of the cursor. -/
theorem rrChoose_single {c k : Nat} (hk : k < 32) : rrChoose c (BIT k) = k := by
  have hpow : BIT k = 2 ^ k := BIT_eq_two_pow k
  have hne : (2:Nat) ^ k ≠ 0 := by positivity
  have hlt : (2:Nat) ^ k < 2 ^ 32 := Nat.pow_lt_pow_right one_lt_two hk
  have hand : 2 ^ k &&& GENMASK 31 c =
      (if (GENMASK 31 c).testBit k then 2 ^ k else 0) := by
    apply Nat.eq_of_testBit_eq
    intro j
    rw [Nat.testBit_land]
    by_cases hj : j = k
    · rw [hj]
      by_cases hg : (GENMASK 31 c).testBit k <;>
        simp [hg, Nat.testBit_two_pow_self, Nat.zero_testBit]
    · have h0 : (2 ^ k).testBit j = false :=
        Nat.testBit_two_pow_of_ne (Ne.symm hj)
      split <;> simp [h0, Nat.zero_testBit]
  have hlog : LOG2 (LSB_GET (2 ^ k)) = k := by
    rw [LOG2_LSB_GET hne hlt, ctz_two_pow]
  rw [rrChoose, hpow]
  by_cases hg : (GENMASK 31 c).testBit k
  · simp only [hand, hg, if_true]
    simp [hne, hlog]
  · simp only [hand, hg, if_false]
    simp [hlog]

theorem getD_set_self {l : List Nat} {k v : Nat} (h : k < l.length) :
    (l.set k v).getD k 0 = v := by
  simp [List.getD_eq_getElem?_getD, List.getElem?_set_self', h]

/-- Promotion step of `Cm2DmMsgReqSmbusHandler` in closed form: with no
message in flight and a non-empty pending bitmap, the handler picks the
round-robin kind, clears its pending bit, stamps the next sequence number
and exposes the promoted message. -/
theorem req_promote (s : Cm2DmMsgState) (hvalid : s.curr_msg_valid = false)
    (hpend : s.pending_messages ≠ 0) :
    Cm2DmMsgReqSmbusHandler s =
      ({ s with
          pending_messages :=
            clearBit32 s.pending_messages (rrChoose s.next_id_rr s.pending_messages),
          next_id_rr := (rrChoose s.next_id_rr s.pending_messages + 1) % kCm2DmMsgCount,
          next_seq_num := (s.next_seq_num + 1) % 256,
          curr_msg_valid := true,
          curr_msg := ⟨rrChoose s.next_id_rr s.pending_messages, s.next_seq_num,
            s.next_msgs.getD (rrChoose s.next_id_rr s.pending_messages) 0⟩ },
       ⟨rrChoose s.next_id_rr s.pending_messages, s.next_seq_num,
        s.next_msgs.getD (rrChoose s.next_id_rr s.pending_messages) 0⟩) := by
  simp [Cm2DmMsgReqSmbusHandler, hvalid, hpend, next_id_rr]

/-- C3: posting `k, v1` then `k, v2` before the next poll creates a single
pending entry for kind `k` holding `v2`; the poll then dispatches exactly
one message for kind `k`, carrying `v2` (`v1` is never exposed), clears the
pending bitmap, and a further poll merely re-exposes that same message. -/
theorem cm2dm_last_value_wins (s : Cm2DmMsgState) (k v1 v2 : Nat)
    (hk : k < kCm2DmMsgCount) (hlen : s.next_msgs.length = kCm2DmMsgCount)
    (hvalid : s.curr_msg_valid = false) (hpend : s.pending_messages = 0) :
    (PostCm2DmMsg (PostCm2DmMsg s k v1) k v2).pending_messages = BIT k ∧
    (PostCm2DmMsg (PostCm2DmMsg s k v1) k v2).next_msgs.getD k 0 = v2 ∧
    (Cm2DmMsgReqSmbusHandler (PostCm2DmMsg (PostCm2DmMsg s k v1) k v2)).2 =
      ⟨k, s.next_seq_num, v2⟩ ∧
    (Cm2DmMsgReqSmbusHandler
      (PostCm2DmMsg (PostCm2DmMsg s k v1) k v2)).1.pending_messages = 0 ∧
    Cm2DmMsgReqSmbusHandler
        ((Cm2DmMsgReqSmbusHandler (PostCm2DmMsg (PostCm2DmMsg s k v1) k v2)).1) =
      ((Cm2DmMsgReqSmbusHandler (PostCm2DmMsg (PostCm2DmMsg s k v1) k v2)).1,
       (Cm2DmMsgReqSmbusHandler (PostCm2DmMsg (PostCm2DmMsg s k v1) k v2)).2) := by
  have hk32 : k < 32 := by
    have : kCm2DmMsgCount = 8 := rfl
    omega
  set s2 := PostCm2DmMsg (PostCm2DmMsg s k v1) k v2 with hs2
  have hp2 : s2.pending_messages = BIT k := by
    simp [hs2, PostCm2DmMsg, hpend]
  have hmsgs2 : s2.next_msgs = s.next_msgs.set k v2 := by
    simp [hs2, PostCm2DmMsg, List.set_set]
  have hdata : s2.next_msgs.getD k 0 = v2 := by
    rw [hmsgs2]
    exact getD_set_self (by omega)
  have hval2 : s2.curr_msg_valid = false := hvalid
  have hseq2 : s2.next_seq_num = s.next_seq_num := rfl
  have hrr2 : s2.next_id_rr = s.next_id_rr := rfl
  have hstep := req_promote s2 hval2 (by rw [hp2, BIT_eq_two_pow]; positivity)
  rw [hp2, hrr2, rrChoose_single hk32, hseq2, hdata, clearBit32_two_pow_self hk32] at hstep
  refine ⟨hp2, hdata, ?_, ?_, ?_⟩
  · rw [hstep]
  · rw [hstep]
  · rw [hstep]
    simp [Cm2DmMsgReqSmbusHandler]

/-- Witness for C3 at the concrete scenario of spec §8 end-to-end B:
fan-speed updates 42 then 55 posted before a poll tick. -/
theorem cm2dm_last_value_wins_witness :
    (Cm2DmMsgReqSmbusHandler
      (PostCm2DmMsg (PostCm2DmMsg initCm2DmState kCm2DmMsgIdFanSpeedUpdate 42)
        kCm2DmMsgIdFanSpeedUpdate 55)).2 =
      ⟨kCm2DmMsgIdFanSpeedUpdate, 0, 55⟩ :=
  (cm2dm_last_value_wins initCm2DmState kCm2DmMsgIdFanSpeedUpdate 42 55
    (by decide) (by decide) (by decide) (by decide)).2.2.1

set_option maxRecDepth 10000 in
/-- Selection progress: either the pending kind `k` is chosen, or the
cyclic distance from the cursor to `k` strictly decreases. -/
theorem rrChoose_progress : ∀ c < 8, ∀ p < 256, ∀ k < 8, p.testBit k = true →
    rrChoose c p = k ∨
    (k + 8 - ((rrChoose c p + 1) % kCm2DmMsgCount)) % 8 < (k + 8 - c) % 8 := by
  decide

set_option maxRecDepth 10000 in
theorem rrChoose_bounded : ∀ c < 8, ∀ p < 256, p ≠ 0 → rrChoose c p < 8 := by
  decide

set_option maxRecDepth 10000 in
/-- The code's selection agrees with the specification-side selection. -/
theorem rrChoose_eq_spec : ∀ c < 8, ∀ p < 256, p ≠ 0 →
    rrChoose c p = rrChooseSpec c p := by
  decide

theorem rrCursorSeq_shift (c : Nat) (f : Nat → Nat) :
    ∀ n, rrCursorSeq c f (n + 1) =
      rrCursorSeq ((rrChoose c (f 0) + 1) % kCm2DmMsgCount) (fun m => f (m + 1)) n := by
  intro n
  induction n with
  | zero => rfl
  | succ n ihn =>
    show (rrChoose (rrCursorSeq c f (n + 1)) (f (n + 1)) + 1) % kCm2DmMsgCount = _
    rw [ihn]
    rfl

/-- A kind that stays continuously pending is chosen within `d + 1`
selections, where `d` bounds the cyclic distance from the cursor. -/
theorem rr_no_starvation_aux : ∀ (d c k : Nat) (f : Nat → Nat), c < 8 → k < 8 →
    (∀ n, f n < 256) → (∀ n, (f n).testBit k = true) → (k + 8 - c) % 8 ≤ d →
    ∃ j, j ≤ d ∧ rrChoose (rrCursorSeq c f j) (f j) = k := by
  intro d
  induction d with
  | zero =>
    intro c k f hc hk hf hfk hd
    rcases rrChoose_progress c hc (f 0) (hf 0) k hk (hfk 0) with h | h
    · exact ⟨0, le_refl 0, h⟩
    · omega
  | succ d ih =>
    intro c k f hc hk hf hfk hd
    rcases rrChoose_progress c hc (f 0) (hf 0) k hk (hfk 0) with h | h
    · exact ⟨0, Nat.zero_le _, h⟩
    · have hc' : (rrChoose c (f 0) + 1) % kCm2DmMsgCount < 8 :=
        Nat.mod_lt _ (by decide)
      obtain ⟨j, hj, hjk⟩ := ih ((rrChoose c (f 0) + 1) % kCm2DmMsgCount) k
        (fun m => f (m + 1)) hc' hk (fun n => hf (n + 1)) (fun n => hfk (n + 1)) (by omega)
      refine ⟨j + 1, by omega, ?_⟩
      rw [rrCursorSeq_shift]
      exact hjk

/-- C5: with no message in flight and a non-empty pending bitmap, the
dispatcher selects the lowest-index pending kind at or above the rotation
cursor (or the lowest-index pending kind overall when none is at or above
it) and advances the cursor to `(chosen + 1) % kCm2DmMsgCount`;
consequently every continuously pending kind is selected within at most
`kCm2DmMsgCount` consecutive selections. -/
theorem cm2dm_round_robin_fair :
    (∀ (s : Cm2DmMsgState) (p : Nat), s.next_id_rr < 8 → p < 256 → p ≠ 0 →
      (next_id_rr s p).2 = rrChooseSpec s.next_id_rr p ∧
      (next_id_rr s p).1.next_id_rr =
        ((next_id_rr s p).2 + 1) % kCm2DmMsgCount) ∧
    (∀ (c k : Nat) (f : Nat → Nat), c < 8 → k < 8 → (∀ n, f n < 256) →
      (∀ n, (f n).testBit k = true) →
      ∃ j, j < kCm2DmMsgCount ∧ rrChoose (rrCursorSeq c f j) (f j) = k) := by
  constructor
  · intro s p hc hp hp0
    exact ⟨rrChoose_eq_spec s.next_id_rr hc p hp hp0, rfl⟩
  · intro c k f hc hk hf hfk
    obtain ⟨j, hj, hjk⟩ := rr_no_starvation_aux 7 c k f hc hk hf hfk
      (by have := Nat.mod_lt (k + 8 - c) (show 0 < 8 by norm_num); omega)
    exact ⟨j, by simp [kCm2DmMsgCount]; omega, hjk⟩

/-- Witness for C5: cursor 0, kind 5 continuously pending. -/
theorem cm2dm_round_robin_fair_witness :
    ∃ j, j < kCm2DmMsgCount ∧
      rrChoose (rrCursorSeq 0 (fun _ => BIT 5) j) ((fun _ => BIT 5) j) = 5 := by
  have h1 : ∀ n : Nat, (fun _ : Nat => BIT 5) n < 256 := by
    intro n
    show BIT 5 < 256
    decide
  have h2 : ∀ n : Nat, ((fun _ : Nat => BIT 5) n).testBit 5 = true := by
    intro n
    show (BIT 5).testBit 5 = true
    decide
  exact cm2dm_round_robin_fair.2 0 5 (fun _ => BIT 5) (by decide) (by decide) h1 h2

/-- One loop iteration on an empty transport: the sender answers with the
null message and the loop breaks. -/
theorem processCm2DmIter_nil (pb : Nat → Nat → Bool) (fuel : Nat)
    (chip : DmcChipState) (calls : List (Nat × Nat)) (acks : List cm2dmAck)
    (warns : List Nat) :
    processCm2DmIter pb (fuel + 1) chip [] calls acks warns =
      ⟨chip, calls, acks, warns⟩ := by
  simp [processCm2DmIter, fetchCm2DmMessage, zeroMsg, kCm2DmMsgIdNull]

/-- One loop iteration on a fresh (non-duplicate) message with a handler
that does not break: the message is acknowledged, the dedup record
updated, and the handler invoked. -/
theorem processCm2DmIter_new (pb : Nat → Nat → Bool) (fuel : Nat)
    (chip : DmcChipState) (m : cm2dmMessage) (rest : List cm2dmMessage)
    (calls : List (Nat × Nat)) (acks : List cm2dmAck) (warns : List Nat)
    (hid0 : m.msg_id ≠ kCm2DmMsgIdNull) (hid8 : m.msg_id < kCm2DmMsgCount)
    (hnew : ¬(chip.last_cm2dm_seq_num_valid = true ∧
      chip.last_cm2dm_seq_num = m.seq_num))
    (hnb : pb m.msg_id m.data = false) :
    processCm2DmIter pb (fuel + 1) chip (m :: rest) calls acks warns =
      processCm2DmIter pb fuel
        { chip with last_cm2dm_seq_num_valid := true,
                    last_cm2dm_seq_num := m.seq_num }
        rest (calls ++ [(m.msg_id, m.data)]) (acks ++ [⟨m.msg_id, m.seq_num⟩])
        warns := by
  simp [processCm2DmIter, fetchCm2DmMessage, hid0, hid8, hnew, hnb]

/-- One loop iteration on a duplicate message (same `seq_num` as the last
valid one): the message is still acknowledged but the handler is not
invoked; a warning is logged only if this value was not already warned
about. -/
theorem processCm2DmIter_dup (pb : Nat → Nat → Bool) (fuel : Nat)
    (chip : DmcChipState) (m : cm2dmMessage) (rest : List cm2dmMessage)
    (calls : List (Nat × Nat)) (acks : List cm2dmAck) (warns : List Nat)
    (hid0 : m.msg_id ≠ kCm2DmMsgIdNull)
    (hdup : chip.last_cm2dm_seq_num_valid = true ∧
      chip.last_cm2dm_seq_num = m.seq_num) :
    processCm2DmIter pb (fuel + 1) chip (m :: rest) calls acks warns =
      (if m.seq_num = chip.last_warned_seq_num then
        processCm2DmIter pb fuel chip rest calls
          (acks ++ [⟨m.msg_id, m.seq_num⟩]) warns
      else
        processCm2DmIter pb fuel { chip with last_warned_seq_num := m.seq_num }
          rest calls (acks ++ [⟨m.msg_id, m.seq_num⟩])
          (warns ++ [m.seq_num])) := by
  by_cases hw : m.seq_num = chip.last_warned_seq_num <;>
    simp [processCm2DmIter, fetchCm2DmMessage, hid0, hdup, hw]

/-- C4: within one `process_cm2dm_message` run, delivering the same
`{kind, seq_num}` message twice invokes the kind-specific handler exactly
once — the second delivery is detected as a duplicate by `seq_num`
comparison against the last valid value and skipped (with at most one
warning per duplicate value) — while an acknowledgment is produced for
both deliveries; only the genuinely new `seq_num` of the first delivery
runs the handler and updates the dedup record. -/
theorem dmc_dedup_handler_once (chip : DmcChipState) (m : cm2dmMessage)
    (procBreak : Nat → Nat → Bool)
    (hid0 : m.msg_id ≠ kCm2DmMsgIdNull) (hid8 : m.msg_id < kCm2DmMsgCount)
    (hnew : ¬(chip.last_cm2dm_seq_num_valid = true ∧
      chip.last_cm2dm_seq_num = m.seq_num))
    (hnb : procBreak m.msg_id m.data = false) :
    (process_cm2dm_message procBreak chip [m, m]).calls = [(m.msg_id, m.data)] ∧
    (process_cm2dm_message procBreak chip [m, m]).acks =
      [⟨m.msg_id, m.seq_num⟩, ⟨m.msg_id, m.seq_num⟩] ∧
    (process_cm2dm_message procBreak chip [m, m]).warns =
      (if m.seq_num = chip.last_warned_seq_num then [] else [m.seq_num]) ∧
    (process_cm2dm_message procBreak chip [m, m]).chip.last_cm2dm_seq_num_valid =
      true ∧
    (process_cm2dm_message procBreak chip [m, m]).chip.last_cm2dm_seq_num =
      m.seq_num := by
  set chip1 : DmcChipState :=
    { chip with last_cm2dm_seq_num_valid := true, last_cm2dm_seq_num := m.seq_num }
    with hchip1
  have step1 := processCm2DmIter_new procBreak 7 chip m [m] [] [] [] hid0 hid8 hnew hnb
  have hdup : chip1.last_cm2dm_seq_num_valid = true ∧
      chip1.last_cm2dm_seq_num = m.seq_num := ⟨rfl, rfl⟩
  have step2 := processCm2DmIter_dup procBreak 6 chip1
    m [] [(m.msg_id, m.data)] [⟨m.msg_id, m.seq_num⟩] [] hid0 hdup
  have hrun : process_cm2dm_message procBreak chip [m, m] =
      processCm2DmIter procBreak 7 chip1
        [m] [(m.msg_id, m.data)] [⟨m.msg_id, m.seq_num⟩] [] := by
    rw [process_cm2dm_message, show (kCm2DmMsgCount : Nat) = 7 + 1 from rfl, step1]
    simp
  rw [hrun, show (7 : Nat) = 6 + 1 from rfl, step2]
  by_cases hw : m.seq_num = chip.last_warned_seq_num
  · rw [if_pos (by simpa using hw)]
    rw [show (6 : Nat) = 5 + 1 from rfl, processCm2DmIter_nil]
    simp [hw]
  · rw [if_neg (by simpa using hw)]
    rw [show (6 : Nat) = 5 + 1 from rfl, processCm2DmIter_nil]
    simp [hw]

/-- Witness for C4: a concrete fan-speed message delivered twice to a
fresh DMC state. -/
theorem dmc_dedup_handler_once_witness :
    (process_cm2dm_message (fun _ _ => false) initDmcChipState
      [⟨3, 9, 42⟩, ⟨3, 9, 42⟩]).calls = [(3, 42)] ∧
    (process_cm2dm_message (fun _ _ => false) initDmcChipState
      [⟨3, 9, 42⟩, ⟨3, 9, 42⟩]).acks = [⟨3, 9⟩, ⟨3, 9⟩] := by
  have h := dmc_dedup_handler_once initDmcChipState ⟨3, 9, 42⟩ (fun _ _ => false)
    (by decide) (by decide) (by decide) rfl
  exact ⟨h.1, h.2.1⟩

/-- Witness for C6 at a concrete idle state with one pending kind. -/
theorem cm2dm_seq_num_discipline_witness :
    (Cm2DmMsgReqSmbusHandler { exampleInFlightState with
        curr_msg_valid := false, pending_messages := BIT 3 }).1.next_seq_num =
      ({ exampleInFlightState with
        curr_msg_valid := false, pending_messages := BIT 3 }.next_seq_num + 1) % 256 :=
  (cm2dm_seq_num_discipline.1 _ (by decide) (by decide)).1

/-! ### Bitmap-popping loops and the compaction order -/

theorem upd_self (f : Nat → Nat) (i v : Nat) : upd f i v i = v := by
  simp [upd]

theorem upd_of_ne (f : Nat → Nat) {i j : Nat} (v : Nat) (h : j ≠ i) :
    upd f i v j = f j := by
  simp [upd, h]

/-- Bits of `clearBit32 m i` for `i < 32`, `m < 2^32`. -/
theorem testBit_clearBit32 {m i : Nat} (hi : i < 32) (hm : m < 2 ^ 32) (j : Nat) :
    (clearBit32 m i).testBit j = (m.testBit j && !(j == i)) := by
  rw [clearBit32, Nat.testBit_land, Nat.testBit_xor, MASK32_testBit, BIT_eq_two_pow]
  by_cases hj32 : j < 32
  · by_cases hj : j = i
    · subst hj
      simp [Nat.testBit_two_pow_self, hj32]
    · simp [hj32, hj, Nat.testBit_two_pow_of_ne (show i ≠ j from Ne.symm hj)]
  · have : m.testBit j = false :=
      Nat.testBit_lt_two_pow (lt_of_lt_of_le hm (Nat.pow_le_pow_right (by norm_num) (by omega)))
    simp [this]

theorem and_lt_two_pow_32 {m x : Nat} (hm : m < 2 ^ 32) : m &&& x < 2 ^ 32 :=
  lt_of_le_of_lt Nat.and_le_left hm

/-- Bits of `m & ~LSB_GET(m)`: the bits of `m` with the lowest one
removed. -/
theorem testBit_clearLsb {m : Nat} (h0 : m ≠ 0) (hm : m < 2 ^ 32) (j : Nat) :
    (m &&& (MASK32 ^^^ LSB_GET m)).testBit j = (m.testBit j && !(j == ctz m)) := by
  have hct : ctz m < 32 := ctz_lt_of_lt_two_pow h0 hm
  rw [LSB_GET_eq h0 hm, show MASK32 ^^^ 2 ^ ctz m = MASK32 ^^^ BIT (ctz m) by
    rw [BIT_eq_two_pow]]
  exact testBit_clearBit32 hct hm j

/-- Splitting off the least element of a filtered range. -/
theorem filter_range_cons {t : Nat} {p q : Nat → Bool} : ∀ {n : Nat}, t < n →
    p t = true → q t = false → (∀ j < t, p j = false) → (∀ j < t, q j = false) →
    (∀ j, t < j → p j = q j) →
    (List.range n).filter p = t :: (List.range n).filter q := by
  intro n
  induction n with
  | zero => omega
  | succ n ih =>
    intro ht hpt hqt hlowp hlowq hhigh
    rw [List.range_succ, List.filter_append, List.filter_append]
    by_cases hn : t < n
    · rw [ih hn hpt hqt hlowp hlowq hhigh]
      have heq : p n = q n := hhigh n hn
      simp [List.filter, heq]
    · have htn : t = n := by omega
      subst htn
      have h1 : (List.range t).filter p = [] :=
        List.filter_eq_nil_iff.mpr (fun a ha => by
          simp [hlowp a (List.mem_range.mp ha)])
      have h2 : (List.range t).filter q = [] :=
        List.filter_eq_nil_iff.mpr (fun a ha => by
          simp [hlowq a (List.mem_range.mp ha)])
      simp [h1, h2, List.filter, hpt, hqt]

theorem bitsList_zero (n : Nat) : bitsList n 0 = [] := by
  simp [bitsList]

/-- Popping the lowest set bit: the ascending bit list of `m` is its
lowest bit followed by the ascending bit list of `m & ~LSB_GET(m)`. -/
theorem bitsList_cons {m : Nat} (h0 : m ≠ 0) (hm : m < 2 ^ 32) :
    bitsList 32 m = ctz m :: bitsList 32 (m &&& (MASK32 ^^^ LSB_GET m)) := by
  refine filter_range_cons (ctz_lt_of_lt_two_pow h0 hm) (testBit_ctz h0) ?_ ?_ ?_ ?_
  · rw [testBit_clearLsb h0 hm]
    simp
  · exact fun j hj => testBit_lt_ctz hj
  · intro j hj
    rw [testBit_clearLsb h0 hm]
    simp [testBit_lt_ctz hj]
  · intro j hj
    rw [testBit_clearLsb h0 hm]
    have : (j == ctz m) = false := by
      simp
      omega
    simp [this]

/-- The good-column compaction loop in closed form: it writes, slot by
slot, the ascending list of set bits of the mask, and leaves the mask's
remaining bits. -/
theorem popAssign_spec : ∀ (slots : List Nat) (ttx : Nat → Nat) (m : Nat),
    m < 2 ^ 32 →
    (popAssign slots ttx m).1 = writes ttx (slots.zip (bitsList 32 m)) ∧
    (popAssign slots ttx m).2 < 2 ^ 32 ∧
    bitsList 32 (popAssign slots ttx m).2 = (bitsList 32 m).drop slots.length := by
  intro slots
  induction slots with
  | nil =>
    intro ttx m hm
    exact ⟨rfl, hm, rfl⟩
  | cons s rest ih =>
    intro ttx m hm
    by_cases h0 : m = 0
    · subst h0
      rw [popAssign]
      simp [bitsList_zero, writes]
    · rw [popAssign]
      simp only [h0, ne_eq, not_false_eq_true, if_true]
      have hm2 : m &&& (MASK32 ^^^ LSB_GET m) < 2 ^ 32 := and_lt_two_pow_32 hm
      have hlog : LOG2 (LSB_GET m) = ctz m := LOG2_LSB_GET h0 hm
      obtain ⟨ih1, ih2, ih3⟩ := ih (upd ttx s (LOG2 (LSB_GET m))) (m &&& (MASK32 ^^^ LSB_GET m)) hm2
      refine ⟨?_, ih2, ?_⟩
      · rw [ih1, bitsList_cons h0 hm, hlog]
        rfl
      · rw [ih3, bitsList_cons h0 hm]
        rfl

/-- The bad-column loop in closed form: it writes, slot by slot, the NOC-0
X coordinates of the bad columns in ascending column order. -/
theorem popAssignBad_spec : ∀ (slots : List Nat) (ttx : Nat → Nat) (bad : Nat),
    bad < 2 ^ 32 →
    (popAssignBad slots ttx bad).1 =
      writes ttx (slots.zip ((bitsList 32 bad).map
        (fun i => kTensixEthNoc0X.getD i 0))) := by
  intro slots
  induction slots with
  | nil =>
    intro ttx bad hm
    rfl
  | cons s rest ih =>
    intro ttx bad hm
    by_cases h0 : bad = 0
    · subst h0
      rw [popAssignBad]
      simp [bitsList_zero, writes]
    · rw [popAssignBad]
      simp only [h0, ne_eq, not_false_eq_true, if_true]
      have hm2 : bad &&& (MASK32 ^^^ LSB_GET bad) < 2 ^ 32 := and_lt_two_pow_32 hm
      have hlog : LOG2 (LSB_GET bad) = ctz bad := LOG2_LSB_GET h0 hm
      rw [ih _ _ hm2, bitsList_cons h0 hm, hlog]
      rfl

/-- Reading an index no store touches. -/
theorem writes_of_ne : ∀ (ps : List (Nat × Nat)) (f : Nat → Nat) (s : Nat),
    (∀ pr ∈ ps, pr.1 ≠ s) → writes f ps s = f s := by
  intro ps
  induction ps with
  | nil => intro f s _; rfl
  | cons p rest ih =>
    intro f s h
    show writes (upd f p.1 p.2) rest s = f s
    rw [ih _ _ (fun pr hpr => h pr (List.mem_cons_of_mem p hpr)),
      upd_of_ne _ _ (Ne.symm (h p (List.mem_cons_self p rest)))]

/-- Reading a stored index when all stored indices are distinct. -/
theorem writes_getElem : ∀ (ps : List (Nat × Nat)) (f : Nat → Nat)
    (_ : (ps.map Prod.fst).Nodup) (j : Nat) (hj : j < ps.length),
    writes f ps (ps[j].1) = ps[j].2 := by
  intro ps
  induction ps with
  | nil => intro f _ j hj; simp at hj
  | cons p rest ih =>
    intro f hnd j hj
    match j with
    | 0 =>
      show writes (upd f p.1 p.2) rest p.1 = p.2
      have hnotin : ∀ pr ∈ rest, pr.1 ≠ p.1 := by
        intro pr hpr heq
        have : p.1 ∈ rest.map Prod.fst := List.mem_map.mpr ⟨pr, hpr, heq⟩
        exact (List.nodup_cons.mp hnd).1 this
      rw [writes_of_ne rest _ _ hnotin, upd_self]
    | j + 1 =>
      have hj' : j < rest.length := by simpa using hj
      show writes (upd f p.1 p.2) rest ((rest.get ⟨j, hj'⟩).1) = (rest.get ⟨j, hj'⟩).2
      exact ih _ (List.nodup_cons.mp hnd).2 j hj'

/-- Clearing one bit index removes at most one element from a count. -/
theorem countP_clear_le : ∀ (l : List Nat) (p : Nat → Bool) (j : Nat),
    l.countP p ≤ l.countP (fun x => p x && !(x == j)) + l.count j := by
  intro l
  induction l with
  | nil => intro p j; simp
  | cons a l ih =>
    intro p j
    have h1 := ih p j
    by_cases hpa : p a = true
    · by_cases haj : a = j
      · subst haj
        rw [List.countP_cons_of_pos _ _ hpa,
          List.countP_cons_of_neg _ _ (by simp [hpa]), List.count_cons]
        have hbeq : (a == a) = true := by simp
        rw [hbeq]
        simp only [if_true]
        omega
      · rw [List.countP_cons_of_pos _ _ hpa,
          List.countP_cons_of_pos _ _ (by simp [hpa, haj]), List.count_cons]
        have hbeq : (a == j) = false := by simp [haj]
        rw [hbeq]
        simp only [Bool.false_eq_true, if_false]
        omega
    · have hpa' : p a = false := by simpa using hpa
      rw [List.countP_cons_of_neg _ _ (by simp [hpa']),
        List.countP_cons_of_neg _ _ (by simp [hpa']), List.count_cons]
      split <;> omega

/-- Clearing one bit shortens the bit list by at most one. -/
theorem bitsList_clearBit32_length {g : Nat} (hg : g < 2 ^ 32) (k : Nat)
    (hk : k < 32) :
    (bitsList 32 g).length ≤ (bitsList 32 (clearBit32 g k)).length + 1 := by
  have hchar : ∀ x, (clearBit32 g k).testBit x = (g.testBit x && !(x == k)) :=
    testBit_clearBit32 hk hg
  have h1 : bitsList 32 (clearBit32 g k) =
      (List.range 32).filter (fun x => g.testBit x && !(x == k)) := by
    unfold bitsList
    exact List.filter_congr (fun x _ => hchar x)
  have h2 := countP_clear_le (List.range 32) (fun x => g.testBit x) k
  have h3 : (List.range 32).count k ≤ 1 :=
    List.nodup_iff_count_le_one.mp (List.nodup_range 32) k
  rw [h1]
  unfold bitsList
  rw [← List.countP_eq_length_filter, ← List.countP_eq_length_filter]
  omega

/-- Narrowing the range of a bit list of a small number. -/
theorem bitsList_narrow : ∀ (k n' : Nat) {m : Nat}, m < 2 ^ n' →
    bitsList (n' + k) m = bitsList n' m := by
  intro k
  induction k with
  | zero => intro n' m _; rfl
  | succ k ih =>
    intro n' m hm
    have : n' + (k + 1) = (n' + k) + 1 := rfl
    rw [this]
    unfold bitsList
    rw [List.range_succ, List.filter_append]
    have hbit : m.testBit (n' + k) = false :=
      Nat.testBit_lt_two_pow
        (lt_of_lt_of_le hm (Nat.pow_le_pow_right (by norm_num) (by omega)))
    have := ih n' hm
    unfold bitsList at this
    simp [hbit, this]

/-- Every NOC-0 X coordinate in the tensix/eth table is below 32. -/
theorem kTensixEthNoc0X_lt (i : Nat) : kTensixEthNoc0X.getD i 0 < 32 := by
  rcases Nat.lt_or_ge i 14 with h | h
  · have hall : ∀ j < 14, kTensixEthNoc0X.getD j 0 < 32 := by decide
    exact hall i h
  · rw [List.getD_eq_default _ _ (by simp [kTensixEthNoc0X]; omega)]
    norm_num

/-- The good-column bitmap keeps at least `14 - popcount(bad)` columns. -/
theorem goodTensix_length {bad : Nat} (hbad : bad < 2 ^ 14) :
    14 ≤ (bitsList 32 (goodTensixNoc0X bad)).length + (bitsList 32 bad).length := by
  have hfold : ∀ (L : List Nat) (acc : Nat), acc < 2 ^ 32 →
      (bitsList 32 acc).length ≤
        (bitsList 32 (L.foldl (fun g i =>
          if bad.testBit i then clearBit32 g (kTensixEthNoc0X.getD i 0) else g) acc)).length +
        L.countP (fun i => bad.testBit i) := by
    intro L
    induction L with
    | nil => intro acc _; simp
    | cons a L ih =>
      intro acc hacc
      show (bitsList 32 acc).length ≤
        (bitsList 32 (L.foldl _ (if bad.testBit a then
          clearBit32 acc (kTensixEthNoc0X.getD a 0) else acc))).length + _
      by_cases hba : bad.testBit a = true
      · have hclear : clearBit32 acc (kTensixEthNoc0X.getD a 0) < 2 ^ 32 :=
          and_lt_two_pow_32 hacc
        have h1 := ih (clearBit32 acc (kTensixEthNoc0X.getD a 0)) hclear
        have h2 := bitsList_clearBit32_length hacc (kTensixEthNoc0X.getD a 0)
          (kTensixEthNoc0X_lt a)
        rw [List.countP_cons_of_pos _ _ (by simpa using hba)]
        simp only [hba, if_true] at *
        omega
      · have h1 := ih acc hacc
        rw [List.countP_cons_of_neg _ _ (by simpa using hba)]
        simp only [hba, if_false] at *
        simpa using h1
  have hinit : (bitsList 32 (GENMASK 7 1 ||| GENMASK 16 10)).length = 14 := by decide
  have hmask : GENMASK 7 1 ||| GENMASK 16 10 < 2 ^ 32 := by decide
  have h := hfold (List.range 14) (GENMASK 7 1 ||| GENMASK 16 10) hmask
  rw [hinit] at h
  have hcount : (List.range 14).countP (fun i => bad.testBit i) =
      (bitsList 32 bad).length := by
    rw [show (32 : Nat) = 14 + 18 from rfl, bitsList_narrow 18 14 hbad]
    unfold bitsList
    rw [← List.countP_eq_length_filter]
  rw [hcount] at h
  exact h

/-! ### Frame lemmas: which table entries each phase writes -/

/-- Folding a table-preserving step preserves the tables. -/
theorem foldl_tables {α : Type} (g : NocTranslation → α → NocTranslation)
    (h : ∀ nt a, (g nt a).translate_table_x = nt.translate_table_x ∧
      (g nt a).translate_table_y = nt.translate_table_y) :
    ∀ (l : List α) (nt : NocTranslation),
      (l.foldl g nt).translate_table_x = nt.translate_table_x ∧
      (l.foldl g nt).translate_table_y = nt.translate_table_y := by
  intro l
  induction l with
  | nil => intro nt; exact ⟨rfl, rfl⟩
  | cons a l ih =>
    intro nt
    have h1 := h nt a
    have h2 := ih (g nt a)
    exact ⟨h2.1.trans h1.1, h2.2.trans h1.2⟩

/-- `ApplyLogicalCoords` never writes the translation tables. -/
theorem ApplyLogicalCoords_tables (nt : NocTranslation)
    (a1 a2 a3 a4 b1 b2 b3 b4 : Nat) :
    (ApplyLogicalCoords nt a1 a2 a3 a4 b1 b2 b3 b4).translate_table_x =
      nt.translate_table_x ∧
    (ApplyLogicalCoords nt a1 a2 a3 a4 b1 b2 b3 b4).translate_table_y =
      nt.translate_table_y := by
  unfold ApplyLogicalCoords
  apply foldl_tables
  intro nt1 pre_x
  dsimp only
  split
  · exact ⟨rfl, rfl⟩
  · apply foldl_tables
    intro nt2 pre_y
    dsimp only
    split
    · exact ⟨rfl, rfl⟩
    · exact ⟨rfl, rfl⟩

/-- `CopyBytesSkipIndices` writes only output slots
`[outPos, outPos + count)`. -/
theorem CBSI_frame : ∀ (fuel count skip : Nat), count + skip ≤ fuel →
    ∀ (out : Nat → Nat) (outPos inPos : Nat) (inList : List Nat) (i : Nat),
      i < outPos ∨ outPos + count ≤ i →
      CopyBytesSkipIndices out outPos inList inPos count skip i = out i := by
  intro fuel
  induction fuel with
  | zero =>
    intro count skip hle out outPos inPos inList i hi
    have hc : count = 0 := by omega
    unfold CopyBytesSkipIndices
    simp [hc]
  | succ fuel ih =>
    intro count skip hle out outPos inPos inList i hi
    unfold CopyBytesSkipIndices
    by_cases hc : count = 0
    · simp [hc]
    · rw [if_neg hc]
      by_cases hs : skip &&& 1 ≠ 0
      · rw [if_pos hs]
        have hodd : skip % 2 = 1 := by
          rw [Nat.and_one_is_mod] at hs
          omega
        exact ih count (skip / 2) (by omega) out outPos (inPos + 1) inList i hi
      · rw [if_neg hs]
        have hne : i ≠ outPos := by omega
        rw [ih (count - 1) (skip / 2) (by omega) _ (outPos + 1) (inPos + 1) inList i
          (by omega), upd_of_ne _ _ hne]

/-- Everything after the tensix phase leaves `translate_table_x` at indices
`≤ 16` untouched: the X entries of the final table below index 17 are
those computed by the tensix compaction. -/
theorem compute_ttx_low (pcie_instance bad_tensix_cols bad_gddr skip_eth i : Nat)
    (hi : i ≤ 16) :
    (ComputeNocTranslation pcie_instance bad_tensix_cols bad_gddr
        skip_eth).translate_table_x i =
      (nocStage1 bad_tensix_cols).translate_table_x i := by
  have h6 := (ApplyLogicalCoords_tables
    (nocStage6 bad_tensix_cols bad_gddr pcie_instance skip_eth) 8 2 8 2 8 30 8 30).1
  have h5a := (ApplyLogicalCoords_tables
    (nocStage5 bad_tensix_cols bad_gddr pcie_instance skip_eth) 8 3 8 9 8 26 8 29).1
  have h4a2 := (ApplyLogicalCoords_tables
    (ApplyLogicalCoords (nocStage4 bad_tensix_cols bad_gddr pcie_instance skip_eth)
      1 1 7 1 20 25 31 25) 10 1 16 1 20 25 31 25).1
  have h4a1 := (ApplyLogicalCoords_tables
    (nocStage4 bad_tensix_cols bad_gddr pcie_instance skip_eth) 1 1 7 1 20 25 31 25).1
  have h3a := (ApplyLogicalCoords_tables
    (nocStage3 bad_tensix_cols bad_gddr pcie_instance)
    (pcieX pcie_instance) 0 (pcieX pcie_instance) 0 19 24 19 24).1
  have h2a2 := (ApplyLogicalCoords_tables
    (ApplyLogicalCoords (nocStage2 bad_tensix_cols bad_gddr) 0 0 0 11 17 12 17 23)
    9 0 9 11 17 12 17 23).1
  have h2a1 := (ApplyLogicalCoords_tables
    (nocStage2 bad_tensix_cols bad_gddr) 0 0 0 11 17 12 17 23).1
  have h1a2 := (ApplyLogicalCoords_tables
    (ApplyLogicalCoords (nocStage1 bad_tensix_cols) 1 2 7 11 1 2 16 11)
    10 2 16 11 1 2 16 11).1
  have h1a1 := (ApplyLogicalCoords_tables
    (nocStage1 bad_tensix_cols) 1 2 7 11 1 2 16 11).1
  unfold ComputeNocTranslation
  rw [h6]
  unfold nocStage6 nocSecurityTables
  dsimp only
  unfold nocStage5A
  rw [h5a]
  unfold nocStage5 nocL2CpuTables
  dsimp only
  unfold nocStage4A
  rw [h4a2, h4a1]
  unfold nocStage4 nocEthTables
  dsimp only
  rw [CBSI_frame (12 + skip_eth) 12 skip_eth (by omega) _ 20 0 kTensixEthNoc0X i
    (by omega)]
  unfold nocStage3A
  rw [h3a]
  unfold nocStage3 nocPcieTables
  dsimp only
  rw [upd_of_ne _ _ (by omega)]
  unfold nocStage2A
  rw [h2a2, h2a1]
  unfold nocStage2 nocGddrTables
  dsimp only
  split
  · dsimp only
    rw [upd_of_ne _ _ (by omega), upd_of_ne _ _ (by omega)]
    unfold nocStage1A
    rw [h1a2, h1a1]
  · dsimp only
    rw [upd_of_ne _ _ (by omega), upd_of_ne _ _ (by omega)]
    unfold nocStage1A
    rw [h1a2, h1a1]

theorem map_fst_zip_eq_take : ∀ (as bs : List Nat),
    (as.zip bs).map Prod.fst = as.take bs.length := by
  intro as
  induction as with
  | nil => intro bs; simp
  | cons a as ih =>
    intro bs
    cases bs with
    | nil => simp
    | cons b bs => simp [ih bs]

theorem goodTensixNoc0X_lt (bad : Nat) : goodTensixNoc0X bad < 2 ^ 32 := by
  unfold goodTensixNoc0X
  have hgen : ∀ (L : List Nat) (acc : Nat), acc < 2 ^ 32 →
      L.foldl (fun g i => if bad.testBit i then
        clearBit32 g (kTensixEthNoc0X.getD i 0) else g) acc < 2 ^ 32 := by
    intro L
    induction L with
    | nil => intro acc h; exact h
    | cons a L ih =>
      intro acc h
      show L.foldl _ (if bad.testBit a then _ else acc) < 2 ^ 32
      split
      · exact ih _ (and_lt_two_pow_32 h)
      · exact ih _ h
  exact hgen _ _ (by decide)

/-- The tensix phase's X table in closed form: good columns written
ascending into slots `1..7`, their continuation into `10..16`, and the bad
columns' X coordinates written from slot `16` downwards. -/
theorem nocStage1_ttx (bad : Nat) (hbad32 : bad < 2 ^ 32) :
    (nocStage1 bad).translate_table_x =
      writes (writes (writes nocStage0.translate_table_x
          (([1, 2, 3, 4, 5, 6, 7] : List Nat).zip
            (bitsList 32 (goodTensixNoc0X bad))))
          (([10, 11, 12, 13, 14, 15, 16] : List Nat).zip
            ((bitsList 32 (goodTensixNoc0X bad)).drop 7)))
        (([16, 15, 14, 13, 12, 11, 10] : List Nat).zip
          ((bitsList 32 bad).map (fun i => kTensixEthNoc0X.getD i 0))) := by
  have hg := goodTensixNoc0X_lt bad
  obtain ⟨e1, e2, e3⟩ := popAssign_spec [1, 2, 3, 4, 5, 6, 7]
    nocStage0.translate_table_x (goodTensixNoc0X bad) hg
  obtain ⟨f1, _, _⟩ := popAssign_spec [10, 11, 12, 13, 14, 15, 16]
    (popAssign [1, 2, 3, 4, 5, 6, 7] nocStage0.translate_table_x
      (goodTensixNoc0X bad)).1
    (popAssign [1, 2, 3, 4, 5, 6, 7] nocStage0.translate_table_x
      (goodTensixNoc0X bad)).2 e2
  have g1 := popAssignBad_spec [16, 15, 14, 13, 12, 11, 10]
    (popAssign [10, 11, 12, 13, 14, 15, 16]
      (popAssign [1, 2, 3, 4, 5, 6, 7] nocStage0.translate_table_x
        (goodTensixNoc0X bad)).1
      (popAssign [1, 2, 3, 4, 5, 6, 7] nocStage0.translate_table_x
        (goodTensixNoc0X bad)).2).1 bad hbad32
  show (nocTensixTables nocStage0 bad).translate_table_x = _
  unfold nocTensixTables
  dsimp only
  rw [g1, f1, e3, e1]
  rfl

/-- Reading back the `j`-th store of a slot/value zip with distinct
slots. -/
theorem writes_zip_read (slots vals : List Nat) (f : Nat → Nat) (j : Nat)
    (hs : j < slots.length) (hv : j < vals.length) (hnd : slots.Nodup) :
    writes f (slots.zip vals) (slots[j]) = vals[j] := by
  have hjz : j < (slots.zip vals).length := by
    rw [List.length_zip]
    omega
  have hnd2 : ((slots.zip vals).map Prod.fst).Nodup := by
    rw [map_fst_zip_eq_take]
    exact hnd.sublist (List.take_sublist _ _)
  have h := writes_getElem (slots.zip vals) f hnd2 j hjz
  rw [List.getElem_zip] at h
  simpa using h

/-- C7: in the computed translation, for any bad-column bitmap with at
most 7 bad columns, the NOC-0 X coordinates of the enabled columns (in
ascending order) fill the logical column slots `1..7` then `10..`,
skip-compacting over disabled columns, and the disabled columns' X
coordinates occupy the tail slots, slot `16` downwards, in ascending
column order (i.e. the tail read in ascending slot order lists the bad
columns in descending order). -/
theorem noc_tensix_column_order (pcie_instance bad_tensix_cols bad_gddr skip_eth : Nat)
    (hbad : bad_tensix_cols < 2 ^ 14)
    (hcount : (bitsList 32 bad_tensix_cols).length ≤ 7) :
    (∀ j < 7,
      (ComputeNocTranslation pcie_instance bad_tensix_cols bad_gddr
          skip_eth).translate_table_x (j + 1) =
        (bitsList 32 (goodTensixNoc0X bad_tensix_cols)).getD j 0) ∧
    (∀ j, 7 ≤ j → j < 14 - (bitsList 32 bad_tensix_cols).length →
      (ComputeNocTranslation pcie_instance bad_tensix_cols bad_gddr
          skip_eth).translate_table_x (j + 3) =
        (bitsList 32 (goodTensixNoc0X bad_tensix_cols)).getD j 0) ∧
    (∀ i < (bitsList 32 bad_tensix_cols).length,
      (ComputeNocTranslation pcie_instance bad_tensix_cols bad_gddr
          skip_eth).translate_table_x (16 - i) =
        kTensixEthNoc0X.getD ((bitsList 32 bad_tensix_cols).getD i 0) 0) := by
  have hbad32 : bad_tensix_cols < 2 ^ 32 :=
    lt_of_lt_of_le hbad (Nat.pow_le_pow_right (by norm_num) (by norm_num))
  have hGlen : 14 ≤ (bitsList 32 (goodTensixNoc0X bad_tensix_cols)).length +
      (bitsList 32 bad_tensix_cols).length := goodTensix_length hbad
  set G := bitsList 32 (goodTensixNoc0X bad_tensix_cols) with hG
  set B := bitsList 32 bad_tensix_cols with hB
  have hG7 : 7 ≤ G.length := by omega
  have hstage := nocStage1_ttx bad_tensix_cols hbad32
  have hsl1 : ∀ t < 7, ([1, 2, 3, 4, 5, 6, 7] : List Nat).getD t 0 = t + 1 := by decide
  have hsl2 : ∀ t < 7, ([10, 11, 12, 13, 14, 15, 16] : List Nat).getD t 0 = 10 + t := by
    decide
  have hsl3 : ∀ t < 7, ([16, 15, 14, 13, 12, 11, 10] : List Nat).getD t 0 = 16 - t := by
    decide
  have hmem2 : ∀ x ∈ ([10, 11, 12, 13, 14, 15, 16] : List Nat), 10 ≤ x := by decide
  have hmem3 : ∀ x ∈ ([16, 15, 14, 13, 12, 11, 10] : List Nat), 10 ≤ x := by decide
  have hframe : ∀ i ≤ 16,
      (ComputeNocTranslation pcie_instance bad_tensix_cols bad_gddr
        skip_eth).translate_table_x i =
      writes (writes (writes nocStage0.translate_table_x
          (([1, 2, 3, 4, 5, 6, 7] : List Nat).zip G))
          (([10, 11, 12, 13, 14, 15, 16] : List Nat).zip (G.drop 7)))
        (([16, 15, 14, 13, 12, 11, 10] : List Nat).zip
          (B.map (fun i => kTensixEthNoc0X.getD i 0))) i := by
    intro i hi
    rw [compute_ttx_low _ _ _ _ i hi, hstage]
  refine ⟨?_, ?_, ?_⟩
  · intro j hj
    rw [hframe (j + 1) (by omega)]
    rw [writes_of_ne _ _ _ (by
      intro pr hpr
      have h1 : pr.1 ∈ ([16, 15, 14, 13, 12, 11, 10] : List Nat) :=
        (List.of_mem_zip hpr).1
      have := hmem3 pr.1 h1
      omega)]
    rw [writes_of_ne _ _ _ (by
      intro pr hpr
      have h1 : pr.1 ∈ ([10, 11, 12, 13, 14, 15, 16] : List Nat) :=
        (List.of_mem_zip hpr).1
      have := hmem2 pr.1 h1
      omega)]
    have hjlt : j < ([1, 2, 3, 4, 5, 6, 7] : List Nat).length := by
      simp
      omega
    have hslot : ([1, 2, 3, 4, 5, 6, 7] : List Nat)[j] = j + 1 := by
      rw [← List.getD_eq_getElem _ 0 hjlt]
      exact hsl1 j hj
    rw [← hslot, writes_zip_read _ _ _ j hjlt (by omega) (by decide),
      List.getD_eq_getElem G 0 (by omega)]
  · intro j hj7 hjb
    rw [hframe (j + 3) (by omega)]
    rw [writes_of_ne _ _ _ (by
      intro pr hpr
      obtain ⟨idx, hidx, heq⟩ := List.mem_iff_getElem.mp hpr
      have hidx2 : idx < B.length := by
        rw [List.length_zip, List.length_map] at hidx
        simp at hidx
        omega
      have hidx7 : idx < 7 := by omega
      rw [List.getElem_zip] at heq
      have hfst : pr.1 = 16 - idx := by
        rw [← heq]
        show ([16, 15, 14, 13, 12, 11, 10] : List Nat)[idx] = 16 - idx
        rw [← List.getD_eq_getElem _ 0 (by simp; omega)]
        exact hsl3 idx hidx7
      omega)]
    have hj7' : j - 7 < 7 := by omega
    have hjlt : j - 7 < ([10, 11, 12, 13, 14, 15, 16] : List Nat).length := by
      simp
      omega
    have hslot : ([10, 11, 12, 13, 14, 15, 16] : List Nat)[j - 7] = j + 3 := by
      rw [← List.getD_eq_getElem _ 0 hjlt]
      rw [hsl2 (j - 7) hj7']
      omega
    have hdroplen : j - 7 < (G.drop 7).length := by
      rw [List.length_drop]
      omega
    rw [← hslot, writes_zip_read _ _ _ (j - 7) hjlt hdroplen (by decide)]
    rw [List.getElem_drop]
    rw [List.getD_eq_getElem G 0 (by omega)]
    congr 1
    omega
  · intro i hi
    rw [hframe (16 - i) (by omega)]
    have hi7 : i < 7 := by omega
    have hilt : i < ([16, 15, 14, 13, 12, 11, 10] : List Nat).length := by
      simp
      omega
    have hslot : ([16, 15, 14, 13, 12, 11, 10] : List Nat)[i] = 16 - i := by
      rw [← List.getD_eq_getElem _ 0 hilt]
      exact hsl3 i hi7
    have hmaplen : i < (B.map (fun k => kTensixEthNoc0X.getD k 0)).length := by
      rw [List.length_map]
      omega
    rw [← hslot, writes_zip_read _ _ _ i hilt hmaplen (by decide)]
    rw [List.getElem_map]
    rw [List.getD_eq_getElem B 0 (by omega)]

set_option maxRecDepth 40000 in
/-- Witness for C7 at spec §8 scenario C: tensix columns 3 and 9 bad. -/
theorem noc_tensix_column_order_witness :
    (∀ j < 7,
      (ComputeNocTranslation 0 0x208 NO_BAD_GDDR 0x90).translate_table_x (j + 1) =
        (bitsList 32 (goodTensixNoc0X 0x208)).getD j 0) ∧
    (∀ i < (bitsList 32 0x208).length,
      (ComputeNocTranslation 0 0x208 NO_BAD_GDDR 0x90).translate_table_x (16 - i) =
        kTensixEthNoc0X.getD ((bitsList 32 0x208).getD i 0) 0) :=
  ⟨(noc_tensix_column_order 0 0x208 NO_BAD_GDDR 0x90 (by decide) (by decide)).1,
   (noc_tensix_column_order 0 0x208 NO_BAD_GDDR 0x90 (by decide) (by decide)).2.2⟩

/-- C9: ring 1 is derived from ring 0 by point reflection through the grid
center: every in-range table entry of ring 1 equals
`NOC_{X,Y}_SIZE - ring0_entry - 1`, every logical coordinate of ring 1 is
ring 0's logical coordinate at the reflected position, and
`InitNocTranslation` obtains ring 1 exactly as `CopyNoc0ToNoc1` of ring 0
(never an independent recomputation). -/
theorem noc_ring1_mirror (noc0 : NocTranslation)
    (hx : ∀ i < PRE_TRANSLATION_SIZE, noc0.translate_table_x i < NOC_X_SIZE)
    (hy : ∀ i < PRE_TRANSLATION_SIZE, noc0.translate_table_y i < NOC_Y_SIZE) :
    (∀ i < PRE_TRANSLATION_SIZE,
      (CopyNoc0ToNoc1 noc0).translate_table_x i =
        NOC_X_SIZE - noc0.translate_table_x i - 1 ∧
      (CopyNoc0ToNoc1 noc0).translate_table_y i =
        NOC_Y_SIZE - noc0.translate_table_y i - 1) ∧
    (∀ x < NOC_X_SIZE, ∀ y < NOC_Y_SIZE,
      (CopyNoc0ToNoc1 noc0).logical_coords x y =
        noc0.logical_coords (NOC_X_SIZE - x - 1) (NOC_Y_SIZE - y - 1)) ∧
    (∀ pcie_instance bad_tensix_cols bad_gddr skip_eth : Nat,
      (InitNocTranslationTables pcie_instance bad_tensix_cols bad_gddr skip_eth).2 =
        CopyNoc0ToNoc1
          (InitNocTranslationTables pcie_instance bad_tensix_cols bad_gddr
            skip_eth).1) := by
  refine ⟨?_, ?_, ?_⟩
  · intro i hi
    have hxi := hx i hi
    have hyi := hy i hi
    constructor
    · show (if i < PRE_TRANSLATION_SIZE then
        (NOC_X_SIZE + 256 - noc0.translate_table_x i - 1) % 256
        else noc0.translate_table_x i) = NOC_X_SIZE - noc0.translate_table_x i - 1
      rw [if_pos hi]
      unfold NOC_X_SIZE at *
      omega
    · show (if i < PRE_TRANSLATION_SIZE then
        (NOC_Y_SIZE + 256 - noc0.translate_table_y i - 1) % 256
        else noc0.translate_table_y i) = NOC_Y_SIZE - noc0.translate_table_y i - 1
      rw [if_pos hi]
      unfold NOC_Y_SIZE at *
      omega
  · intro x hxlt y hylt
    show (if x < NOC_X_SIZE ∧ y < NOC_Y_SIZE then
        noc0.logical_coords (NOC_X_SIZE - x - 1) (NOC_Y_SIZE - y - 1)
      else noc0.logical_coords x y) = _
    rw [if_pos ⟨hxlt, hylt⟩]
  · intro pcie_instance bad_tensix_cols bad_gddr skip_eth
    simp only [InitNocTranslationTables]

set_option maxRecDepth 4000 in
/-- Witness for C9 at the identity table. -/
theorem noc_ring1_mirror_witness :
    (CopyNoc0ToNoc1 MakeIdentity).translate_table_x 3 =
      NOC_X_SIZE - MakeIdentity.translate_table_x 3 - 1 ∧
    (CopyNoc0ToNoc1 MakeIdentity).logical_coords 2 5 =
      MakeIdentity.logical_coords (NOC_X_SIZE - 2 - 1) (NOC_Y_SIZE - 5 - 1) := by
  have h := noc_ring1_mirror MakeIdentity
    (by intro i hi; revert i; decide) (by intro i hi; revert i; decide)
  exact ⟨(h.1 3 (by decide)).1, h.2.1 2 (by decide) 5 (by decide)⟩

/-- C10: the debug NOC-translation handler returns 0 on success, and when
`bad_gddr` names an out-of-range channel id (`≥ NUM_GDDR`) other than the
`NO_BAD_GDDR` sentinel it returns the positive error code `-EINVAL` (as a
`uint8_t`) having performed no NOC operation at all — translation and
broadcast-exclusion state are untouched. -/
theorem debug_noc_gddr_check (fwPcie1IsEP : Bool) (req : DebugNocRequest) :
    (req.bad_gddr ≥ NUM_GDDR → req.bad_gddr ≠ NO_BAD_GDDR →
      debug_noc_translation_handler fwPcie1IsEP req = ([], 234) ∧ 0 < 234) ∧
    (req.bad_gddr < NUM_GDDR ∨ req.bad_gddr = NO_BAD_GDDR →
      (debug_noc_translation_handler fwPcie1IsEP req).2 = 0) := by
  constructor
  · intro h1 h2
    refine ⟨?_, by norm_num⟩
    unfold debug_noc_translation_handler
    rw [if_pos ⟨h1, h2⟩]
    rfl
  · intro h
    have hneg : ¬(req.bad_gddr ≥ NUM_GDDR ∧ req.bad_gddr ≠ NO_BAD_GDDR) := by
      unfold NUM_GDDR NO_BAD_GDDR at *
      omega
    unfold debug_noc_translation_handler
    rw [if_neg hneg]
    split <;> rfl

/-- Witness for C10: `bad_gddr = 9` is rejected with error 234 and no NOC
operation; `bad_gddr = 2` succeeds. -/
theorem debug_noc_gddr_check_witness :
    debug_noc_translation_handler false
      ⟨true, 0, false, 0, 9, 0, 0⟩ = ([], 234) ∧
    (debug_noc_translation_handler false
      ⟨true, 0, false, 0, 2, 0, 0⟩).2 = 0 :=
  ⟨((debug_noc_gddr_check false ⟨true, 0, false, 0, 9, 0, 0⟩).1
      (by decide) (by decide)).1,
   (debug_noc_gddr_check false ⟨true, 0, false, 0, 2, 0, 0⟩).2
      (by decide)⟩

theorem ApplyLogicalCoords_eq_applyOuter (nt : NocTranslation)
    (pxs pys pxe pye xs ys xe ye : Nat) :
    ApplyLogicalCoords nt pxs pys pxe pye xs ys xe ye =
      applyOuter pxs pys pxe pye ys ye (rangeIncl xs xe) nt := rfl

theorem mem_rangeIncl {a b i : Nat} : i ∈ rangeIncl a b ↔ a ≤ i ∧ i ≤ b := by
  simp only [rangeIncl, List.mem_map, List.mem_range]
  constructor
  · rintro ⟨j, hj, rfl⟩
    omega
  · rintro ⟨h1, h2⟩
    exact ⟨i - a, by omega, by omega⟩

theorem pack_eval {x y : Nat} (hx : x ≤ 63) (hy : y ≤ 1023) :
    ((y <<< 6) ||| x) % 2 ^ 16 = 64 * y + x := by
  have h : (y <<< 6) ||| x = 64 * y + x := by
    rw [Nat.shiftLeft_eq, Nat.mul_comm y (2 ^ 6), ← Nat.mul_add_lt_is_or (by omega) y]
  rw [h, Nat.mod_eq_of_lt (by omega)]

theorem applyInner_strong (ntT : NocTranslation) (pys pye post_x pre_x px py : Nat)
    (L : List Nat) :
    ∀ (nt' : NocTranslation),
      nt'.translate_table_x = ntT.translate_table_x →
      nt'.translate_table_y = ntT.translate_table_y →
      (applyInner pys pye post_x pre_x L nt').translate_table_x =
        ntT.translate_table_x ∧
      (applyInner pys pye post_x pre_x L nt').translate_table_y =
        ntT.translate_table_y ∧
      (((applyInner pys pye post_x pre_x L nt').logical_coords px py =
          nt'.logical_coords px py ∧
        ∀ pre_y ∈ L, ntT.translate_table_y pre_y = py →
          ¬(px = post_x ∧ pys ≤ py ∧ py ≤ pye)) ∨
       (∃ pre_y ∈ L, ntT.translate_table_y pre_y = py ∧ px = post_x ∧
         pys ≤ py ∧ py ≤ pye ∧
         (applyInner pys pye post_x pre_x L nt').logical_coords px py =
           ((pre_y <<< 6) ||| pre_x) % 2 ^ 16)) := by
  induction L with
  | nil =>
    intro nt' htx hty
    exact ⟨htx, hty, Or.inl ⟨rfl, by simp⟩⟩
  | cons y L ih =>
    intro nt' htx hty
    have hbody : applyInner pys pye post_x pre_x (y :: L) nt' =
        applyInner pys pye post_x pre_x L
          (if nt'.translate_table_y y < pys ∨ nt'.translate_table_y y > pye then nt'
           else SetLogicalCoord nt' post_x (nt'.translate_table_y y) pre_x y) := rfl
    have hpyv : nt'.translate_table_y y = ntT.translate_table_y y := congrFun hty y
    by_cases hg : nt'.translate_table_y y < pys ∨ nt'.translate_table_y y > pye
    · rw [hbody, if_pos hg]
      obtain ⟨h1, h2, h3⟩ := ih nt' htx hty
      refine ⟨h1, h2, ?_⟩
      rcases h3 with ⟨heq, hno⟩ | ⟨py', hmem, rest⟩
      · refine Or.inl ⟨heq, ?_⟩
        intro q hq hmap
        rcases List.mem_cons.mp hq with hq | hq
        · subst hq
          rintro ⟨-, hb1, hb2⟩
          rw [hpyv, hmap] at hg
          omega
        · exact hno q hq hmap
      · exact Or.inr ⟨py', List.mem_cons_of_mem _ hmem, rest⟩
    · rw [hbody, if_neg hg]
      have hgeq : pys ≤ nt'.translate_table_y y ∧ nt'.translate_table_y y ≤ pye := by
        push_neg at hg
        omega
      obtain ⟨h1, h2, h3⟩ := ih (SetLogicalCoord nt' post_x (nt'.translate_table_y y)
        pre_x y) htx hty
      refine ⟨h1, h2, ?_⟩
      have hs1lc : (SetLogicalCoord nt' post_x (nt'.translate_table_y y) pre_x
            y).logical_coords px py =
          if px = post_x ∧ py = nt'.translate_table_y y
          then ((y <<< 6) ||| pre_x) % 2 ^ 16 else nt'.logical_coords px py := rfl
      rcases h3 with ⟨heq, hno⟩ | ⟨py', hmem, rest⟩
      · by_cases hhit : px = post_x ∧ py = nt'.translate_table_y y
        · refine Or.inr ⟨y, List.mem_cons_self _ _, ?_, hhit.1, ?_, ?_, ?_⟩
          · rw [← hpyv, ← hhit.2]
          · rw [hhit.2]
            exact hgeq.1
          · rw [hhit.2]
            exact hgeq.2
          · rw [heq, hs1lc, if_pos hhit]
        · refine Or.inl ⟨?_, ?_⟩
          · rw [heq, hs1lc, if_neg hhit]
          · intro q hq hmap
            rcases List.mem_cons.mp hq with hq | hq
            · subst hq
              rintro ⟨hb0, -, -⟩
              exact hhit ⟨hb0, by rw [hpyv, hmap]⟩
            · exact hno q hq hmap
      · exact Or.inr ⟨py', List.mem_cons_of_mem _ hmem, rest⟩

theorem applyOuter_strong (ntT : NocTranslation) (pxs pys pxe pye ys ye px py : Nat)
    (L : List Nat) :
    ∀ (nt' : NocTranslation),
      nt'.translate_table_x = ntT.translate_table_x →
      nt'.translate_table_y = ntT.translate_table_y →
      (applyOuter pxs pys pxe pye ys ye L nt').translate_table_x =
        ntT.translate_table_x ∧
      (applyOuter pxs pys pxe pye ys ye L nt').translate_table_y =
        ntT.translate_table_y ∧
      (((applyOuter pxs pys pxe pye ys ye L nt').logical_coords px py =
          nt'.logical_coords px py ∧
        ∀ pre_x ∈ L, ∀ pre_y, ys ≤ pre_y → pre_y ≤ ye →
          ntT.translate_table_x pre_x = px → ntT.translate_table_y pre_y = py →
          ¬(pxs ≤ px ∧ px ≤ pxe ∧ pys ≤ py ∧ py ≤ pye)) ∨
       (∃ pre_x ∈ L, ∃ pre_y, ys ≤ pre_y ∧ pre_y ≤ ye ∧
         ntT.translate_table_x pre_x = px ∧ ntT.translate_table_y pre_y = py ∧
         (applyOuter pxs pys pxe pye ys ye L nt').logical_coords px py =
           ((pre_y <<< 6) ||| pre_x) % 2 ^ 16)) := by
  induction L with
  | nil =>
    intro nt' htx hty
    exact ⟨htx, hty, Or.inl ⟨rfl, by simp⟩⟩
  | cons x L ih =>
    intro nt' htx hty
    have hbody : applyOuter pxs pys pxe pye ys ye (x :: L) nt' =
        applyOuter pxs pys pxe pye ys ye L
          (if nt'.translate_table_x x < pxs ∨ nt'.translate_table_x x > pxe then nt'
           else applyInner pys pye (nt'.translate_table_x x) x (rangeIncl ys ye)
             nt') := rfl
    have hpxv : nt'.translate_table_x x = ntT.translate_table_x x := congrFun htx x
    by_cases hg : nt'.translate_table_x x < pxs ∨ nt'.translate_table_x x > pxe
    · rw [hbody, if_pos hg]
      obtain ⟨h1, h2, h3⟩ := ih nt' htx hty
      refine ⟨h1, h2, ?_⟩
      rcases h3 with ⟨heq, hno⟩ | ⟨qx, hmem, rest⟩
      · refine Or.inl ⟨heq, ?_⟩
        intro q hq pre_y hy1 hy2 hmapx hmapy
        rcases List.mem_cons.mp hq with hq | hq
        · subst hq
          rintro ⟨hb1, hb2, -, -⟩
          rw [hpxv, hmapx] at hg
          omega
        · exact hno q hq pre_y hy1 hy2 hmapx hmapy
      · exact Or.inr ⟨qx, List.mem_cons_of_mem _ hmem, rest⟩
    · rw [hbody, if_neg hg]
      obtain ⟨hi1, hi2, hi3⟩ := applyInner_strong ntT pys pye
        (nt'.translate_table_x x) x px py (rangeIncl ys ye) nt' htx hty
      obtain ⟨h1, h2, h3⟩ := ih (applyInner pys pye (nt'.translate_table_x x) x
        (rangeIncl ys ye) nt') hi1 hi2
      refine ⟨h1, h2, ?_⟩
      rcases hi3 with ⟨hieq, hino⟩ | ⟨qy, hqmem, hqmapy, hqpx, hqb1, hqb2, hqlc⟩
      · rcases h3 with ⟨heq, hno⟩ | ⟨qx, hmem, rest⟩
        · refine Or.inl ⟨heq.trans hieq, ?_⟩
          intro q hq pre_y hy1 hy2 hmapx hmapy
          rcases List.mem_cons.mp hq with hq | hq
          · subst hq
            rintro ⟨-, -, hb3, hb4⟩
            refine hino pre_y (mem_rangeIncl.mpr ⟨hy1, hy2⟩) hmapy
              ⟨?_, hb3, hb4⟩
            rw [← hmapx, hpxv]
          · exact hno q hq pre_y hy1 hy2 hmapx hmapy
        · exact Or.inr ⟨qx, List.mem_cons_of_mem _ hmem, rest⟩
      · rcases h3 with ⟨heq, hno⟩ | ⟨qx, hmem, rest⟩
        · refine Or.inr ⟨x, List.mem_cons_self _ _, qy,
            (mem_rangeIncl.mp hqmem).1, (mem_rangeIncl.mp hqmem).2, ?_,
            hqmapy, heq.trans hqlc⟩
          rw [← hpxv, ← hqpx]
        · exact Or.inr ⟨qx, List.mem_cons_of_mem _ hmem, rest⟩

theorem RTB_start (nt : NocTranslation) (pxs pys pxe pye xs ys xe ye px py : Nat)
    (hxe : xe ≤ 63) (hye : ye ≤ 1023)
    (h : appliedIn nt pxs pys pxe pye xs ys xe ye px py = true) :
    RTB (ApplyLogicalCoords nt pxs pys pxe pye xs ys xe ye) px py xs xe ys ye := by
  simp only [appliedIn, List.any_eq_true, mem_rangeIncl, Bool.and_eq_true,
    beq_iff_eq, decide_eq_true_eq] at h
  obtain ⟨pre_x, hxb, pre_y, hyb, hc⟩ := h
  have hmx : nt.translate_table_x pre_x = px := by tauto
  have hmy : nt.translate_table_y pre_y = py := by tauto
  have hb1 : pxs ≤ px := by tauto
  have hb2 : px ≤ pxe := by tauto
  have hb3 : pys ≤ py := by tauto
  have hb4 : py ≤ pye := by tauto
  obtain ⟨H1, H2, H3⟩ := applyOuter_strong nt pxs pys pxe pye ys ye px py
    (rangeIncl xs xe) nt rfl rfl
  rw [ApplyLogicalCoords_eq_applyOuter]
  rcases H3 with ⟨heq, hno⟩ | ⟨qx, hqmem, qy, hq1, hq2, hqmx, hqmy, hlc⟩
  · exact absurd ⟨hb1, hb2, hb3, hb4⟩
      (hno pre_x (mem_rangeIncl.mpr hxb) pre_y hyb.1 hyb.2 hmx hmy)
  · have hqx := mem_rangeIncl.mp hqmem
    have hpack : ((qy <<< 6) ||| qx) % 2 ^ 16 = 64 * qy + qx :=
      pack_eval (by omega) (by omega)
    have hdx : (applyOuter pxs pys pxe pye ys ye (rangeIncl xs xe) nt).logical_coords
        px py % 64 = qx := by
      rw [hlc, hpack]
      omega
    have hdy : (applyOuter pxs pys pxe pye ys ye (rangeIncl xs xe) nt).logical_coords
        px py / 64 = qy := by
      rw [hlc, hpack]
      omega
    refine ⟨⟨?_, ?_⟩, ?_, ?_, ?_, ?_⟩
    · rw [hdx, H1, hqmx]
    · rw [hdy, H2, hqmy]
    · rw [hdx]; exact hqx.1
    · rw [hdx]; exact hqx.2
    · rw [hdy]; exact hq1
    · rw [hdy]; exact hq2

theorem RTB_apply (nt : NocTranslation)
    (pxs pys pxe pye xs ys xe ye px py xlo xhi ylo yhi : Nat)
    (hxe : xe ≤ 63) (hye : ye ≤ 1023)
    (hxs : xlo ≤ xs) (hxe2 : xe ≤ xhi) (hys : ylo ≤ ys) (hye2 : ye ≤ yhi)
    (h : RTB nt px py xlo xhi ylo yhi) :
    RTB (ApplyLogicalCoords nt pxs pys pxe pye xs ys xe ye) px py xlo xhi ylo yhi := by
  obtain ⟨⟨hrt1, hrt2⟩, hq⟩ := h
  obtain ⟨H1, H2, H3⟩ := applyOuter_strong nt pxs pys pxe pye ys ye px py
    (rangeIncl xs xe) nt rfl rfl
  rw [ApplyLogicalCoords_eq_applyOuter]
  rcases H3 with ⟨heq, -⟩ | ⟨qx, hqmem, qy, hq1, hq2, hqmx, hqmy, hlc⟩
  · exact ⟨⟨by rw [heq, H1]; exact hrt1, by rw [heq, H2]; exact hrt2⟩,
      by rw [heq]; exact hq.1, by rw [heq]; exact hq.2.1,
      by rw [heq]; exact hq.2.2.1, by rw [heq]; exact hq.2.2.2⟩
  · have hqx := mem_rangeIncl.mp hqmem
    have hpack : ((qy <<< 6) ||| qx) % 2 ^ 16 = 64 * qy + qx :=
      pack_eval (by omega) (by omega)
    have hdx : (applyOuter pxs pys pxe pye ys ye (rangeIncl xs xe) nt).logical_coords
        px py % 64 = qx := by
      rw [hlc, hpack]
      omega
    have hdy : (applyOuter pxs pys pxe pye ys ye (rangeIncl xs xe) nt).logical_coords
        px py / 64 = qy := by
      rw [hlc, hpack]
      omega
    refine ⟨⟨?_, ?_⟩, ?_, ?_, ?_, ?_⟩
    · rw [hdx, H1, hqmx]
    · rw [hdy, H2, hqmy]
    · rw [hdx]; omega
    · rw [hdx]; omega
    · rw [hdy]; omega
    · rw [hdy]; omega

theorem RTB_mono (nt : NocTranslation) (px py xlo xhi ylo yhi xlo2 xhi2 ylo2 yhi2 : Nat)
    (h1 : xlo2 ≤ xlo) (h2 : xhi ≤ xhi2) (h3 : ylo2 ≤ ylo) (h4 : yhi ≤ yhi2)
    (h : RTB nt px py xlo xhi ylo yhi) : RTB nt px py xlo2 xhi2 ylo2 yhi2 := by
  obtain ⟨hrt, hb⟩ := h
  exact ⟨hrt, by omega, by omega, by omega, by omega⟩

theorem writeGddrY_frame (t : Nat → Nat) (order : List Nat) (i : Nat) (hi : i ≤ 11) :
    writeGddrY t order i = t i := by
  unfold writeGddrY
  rw [show List.range 4 = [0, 1, 2, 3] from rfl,
    show List.range 3 = [0, 1, 2] from rfl]
  simp only [List.foldl_cons, List.foldl_nil]
  iterate 12 rw [upd_of_ne _ _ (by omega)]

theorem nocGddrTables_lc (nt : NocTranslation) (g : Nat) :
    (nocGddrTables nt g).logical_coords = nt.logical_coords := by
  by_cases h4 : g ≥ 4
  · simp only [nocGddrTables, if_pos h4]
  · simp only [nocGddrTables, if_neg h4]

theorem nocGddrTables_ttx (nt : NocTranslation) (g i : Nat) (hi : i ≤ 16) :
    (nocGddrTables nt g).translate_table_x i = nt.translate_table_x i := by
  by_cases h4 : g ≥ 4
  · simp only [nocGddrTables, if_pos h4]
    rw [upd_of_ne _ _ (show i ≠ 18 by omega), upd_of_ne _ _ (show i ≠ 17 by omega)]
  · simp only [nocGddrTables, if_neg h4]
    rw [upd_of_ne _ _ (show i ≠ 18 by omega), upd_of_ne _ _ (show i ≠ 17 by omega)]

theorem nocGddrTables_tty (nt : NocTranslation) (g i : Nat) (hi : i ≤ 11) :
    (nocGddrTables nt g).translate_table_y i = nt.translate_table_y i := by
  by_cases h4 : g ≥ 4
  · simp only [nocGddrTables, if_pos h4]
    exact writeGddrY_frame _ _ _ hi
  · simp only [nocGddrTables, if_neg h4]
    exact writeGddrY_frame _ _ _ hi

theorem nocL2CpuTables_tty (nt : NocTranslation) (i : Nat) (hi : i ≤ 25) :
    (nocL2CpuTables nt).translate_table_y i = nt.translate_table_y i := by
  show (List.range 4).foldl (fun t j => upd t (26 + j) (kL2CpuNoc0Y.getD j 0))
      nt.translate_table_y i = nt.translate_table_y i
  have h4 : List.range 4 = [0, 1, 2, 3] := rfl
  rw [h4]
  simp only [List.foldl_cons, List.foldl_nil]
  rw [upd_of_ne _ _ (by omega), upd_of_ne _ _ (by omega),
    upd_of_ne _ _ (by omega), upd_of_ne _ _ (by omega)]

theorem RTB_gddr (nt : NocTranslation) (g px py xlo xhi ylo yhi : Nat)
    (hxhi : xhi ≤ 16) (hyhi : yhi ≤ 11)
    (h : RTB nt px py xlo xhi ylo yhi) :
    RTB (nocGddrTables nt g) px py xlo xhi ylo yhi := by
  obtain ⟨⟨hrt1, hrt2⟩, hb1, hb2, hb3, hb4⟩ := h
  have hlc : (nocGddrTables nt g).logical_coords = nt.logical_coords :=
    nocGddrTables_lc nt g
  refine ⟨⟨?_, ?_⟩, ?_, ?_, ?_, ?_⟩ <;> rw [hlc]
  · rw [nocGddrTables_ttx nt g _ (by omega)]
    exact hrt1
  · rw [nocGddrTables_tty nt g _ (by omega)]
    exact hrt2
  · exact hb1
  · exact hb2
  · exact hb3
  · exact hb4

theorem RTB_pcie (nt : NocTranslation) (pcie px py xlo xhi ylo yhi : Nat)
    (hxhi : xhi ≤ 18) (hyhi : yhi ≤ 23)
    (h : RTB nt px py xlo xhi ylo yhi) :
    RTB (nocPcieTables nt pcie) px py xlo xhi ylo yhi := by
  obtain ⟨⟨hrt1, hrt2⟩, hb1, hb2, hb3, hb4⟩ := h
  have hlc : (nocPcieTables nt pcie).logical_coords = nt.logical_coords := rfl
  refine ⟨⟨?_, ?_⟩, ?_, ?_, ?_, ?_⟩ <;> rw [hlc]
  · show upd nt.translate_table_x 19 (pcieX pcie) (nt.logical_coords px py % 64) = px
    rw [upd_of_ne _ _ (by omega)]
    exact hrt1
  · show upd nt.translate_table_y 24 0 (nt.logical_coords px py / 64) = py
    rw [upd_of_ne _ _ (by omega)]
    exact hrt2
  · exact hb1
  · exact hb2
  · exact hb3
  · exact hb4

theorem RTB_eth (nt : NocTranslation) (skip px py xlo xhi ylo yhi : Nat)
    (hxhi : xhi ≤ 19) (hyhi : yhi ≤ 24)
    (h : RTB nt px py xlo xhi ylo yhi) :
    RTB (nocEthTables nt skip) px py xlo xhi ylo yhi := by
  obtain ⟨⟨hrt1, hrt2⟩, hb1, hb2, hb3, hb4⟩ := h
  have hlc : (nocEthTables nt skip).logical_coords = nt.logical_coords := rfl
  refine ⟨⟨?_, ?_⟩, ?_, ?_, ?_, ?_⟩ <;> rw [hlc]
  · show CopyBytesSkipIndices nt.translate_table_x 20 kTensixEthNoc0X 0 12 skip
      (nt.logical_coords px py % 64) = px
    rw [CBSI_frame (12 + skip) 12 skip (by omega) _ 20 0 kTensixEthNoc0X _
      (Or.inl (by omega))]
    exact hrt1
  · show upd nt.translate_table_y 25 1 (nt.logical_coords px py / 64) = py
    rw [upd_of_ne _ _ (by omega)]
    exact hrt2
  · exact hb1
  · exact hb2
  · exact hb3
  · exact hb4

theorem RTB_l2cpu (nt : NocTranslation) (px py xlo xhi ylo yhi : Nat)
    (hyhi : yhi ≤ 25)
    (h : RTB nt px py xlo xhi ylo yhi) :
    RTB (nocL2CpuTables nt) px py xlo xhi ylo yhi := by
  obtain ⟨⟨hrt1, hrt2⟩, hb1, hb2, hb3, hb4⟩ := h
  have hlc : (nocL2CpuTables nt).logical_coords = nt.logical_coords := rfl
  have htx : (nocL2CpuTables nt).translate_table_x = nt.translate_table_x := rfl
  refine ⟨⟨?_, ?_⟩, ?_, ?_, ?_, ?_⟩ <;> rw [hlc]
  · rw [htx]
    exact hrt1
  · rw [nocL2CpuTables_tty nt _ (by omega)]
    exact hrt2
  · exact hb1
  · exact hb2
  · exact hb3
  · exact hb4

theorem RTB_security (nt : NocTranslation) (px py xlo xhi ylo yhi : Nat)
    (hyhi : yhi ≤ 29)
    (h : RTB nt px py xlo xhi ylo yhi) :
    RTB (nocSecurityTables nt) px py xlo xhi ylo yhi := by
  obtain ⟨⟨hrt1, hrt2⟩, hb1, hb2, hb3, hb4⟩ := h
  have hlc : (nocSecurityTables nt).logical_coords = nt.logical_coords := rfl
  refine ⟨⟨?_, ?_⟩, ?_, ?_, ?_, ?_⟩ <;> rw [hlc]
  · show (nocSecurityTables nt).translate_table_x (nt.logical_coords px py % 64) = px
    exact hrt1
  · show upd nt.translate_table_y 30 2 (nt.logical_coords px py / 64) = py
    rw [upd_of_ne _ _ (by omega)]
    exact hrt2
  · exact hb1
  · exact hb2
  · exact hb3
  · exact hb4

/-- C8: forward/inverse round-trip consistency of the table returned by
`ComputeNocTranslation`: for every physical coordinate `(px, py)` whose
`logical_coords` entry is set by one of the engine's
`ApplyLogicalCoords` calls, decoding the stored logical coordinate
(`pre_x = l % 64`, `pre_y = l / 64`) and applying the translation tables
yields the physical coordinate back:
`translate_table_x[pre_x] = px` and `translate_table_y[pre_y] = py`. -/
theorem noc_translation_roundtrip
    (pcie_instance bad_tensix_cols bad_gddr skip_eth px py : Nat)
    (h : nocApplied pcie_instance bad_tensix_cols bad_gddr skip_eth px py = true) :
    roundtripAt (ComputeNocTranslation pcie_instance bad_tensix_cols bad_gddr skip_eth)
      px py := by
  have from6 : RTB (nocStage6 bad_tensix_cols bad_gddr pcie_instance skip_eth)
      px py 1 31 2 30 →
      roundtripAt (ComputeNocTranslation pcie_instance bad_tensix_cols bad_gddr
        skip_eth) px py := fun hr =>
    (RTB_apply _ _ _ _ _ _ _ _ _ _ _ _ _ _ _ (by omega) (by omega) (by omega)
      (by omega) (by omega) (by omega) hr :
      RTB (ComputeNocTranslation pcie_instance bad_tensix_cols bad_gddr skip_eth)
        px py 1 31 2 30).1
  have from5A : RTB (nocStage5A bad_tensix_cols bad_gddr pcie_instance skip_eth)
      px py 1 31 2 29 →
      roundtripAt (ComputeNocTranslation pcie_instance bad_tensix_cols bad_gddr
        skip_eth) px py := fun hr =>
    from6 (RTB_mono _ px py 1 31 2 29 1 31 2 30 (by omega) (by omega) (by omega)
      (by omega)
      (RTB_security _ px py 1 31 2 29 (by omega) hr :
        RTB (nocStage6 bad_tensix_cols bad_gddr pcie_instance skip_eth)
          px py 1 31 2 29))
  have from5 : RTB (nocStage5 bad_tensix_cols bad_gddr pcie_instance skip_eth)
      px py 1 31 2 29 →
      roundtripAt (ComputeNocTranslation pcie_instance bad_tensix_cols bad_gddr
        skip_eth) px py := fun hr =>
    from5A (RTB_apply _ _ _ _ _ _ _ _ _ _ _ _ _ _ _ (by omega) (by omega) (by omega)
      (by omega) (by omega) (by omega) hr :
      RTB (nocStage5A bad_tensix_cols bad_gddr pcie_instance skip_eth)
        px py 1 31 2 29)
  have from4A : RTB (nocStage4A bad_tensix_cols bad_gddr pcie_instance skip_eth)
      px py 1 31 2 25 →
      roundtripAt (ComputeNocTranslation pcie_instance bad_tensix_cols bad_gddr
        skip_eth) px py := fun hr =>
    from5 (RTB_mono _ px py 1 31 2 25 1 31 2 29 (by omega) (by omega) (by omega)
      (by omega)
      (RTB_l2cpu _ px py 1 31 2 25 (by omega) hr :
        RTB (nocStage5 bad_tensix_cols bad_gddr pcie_instance skip_eth)
          px py 1 31 2 25))
  have from4 : RTB (nocStage4 bad_tensix_cols bad_gddr pcie_instance skip_eth)
      px py 1 31 2 25 →
      roundtripAt (ComputeNocTranslation pcie_instance bad_tensix_cols bad_gddr
        skip_eth) px py := fun hr =>
    from4A (RTB_apply _ _ _ _ _ _ _ _ _ _ _ _ _ _ _ (by omega) (by omega) (by omega)
      (by omega) (by omega) (by omega)
      (RTB_apply _ _ _ _ _ _ _ _ _ _ _ _ _ _ _ (by omega) (by omega) (by omega)
        (by omega) (by omega) (by omega) hr :
        RTB (ApplyLogicalCoords
          (nocStage4 bad_tensix_cols bad_gddr pcie_instance skip_eth)
          1 1 7 1 20 25 31 25) px py 1 31 2 25) :
      RTB (nocStage4A bad_tensix_cols bad_gddr pcie_instance skip_eth)
        px py 1 31 2 25)
  have from3A : RTB (nocStage3A bad_tensix_cols bad_gddr pcie_instance)
      px py 1 19 2 24 →
      roundtripAt (ComputeNocTranslation pcie_instance bad_tensix_cols bad_gddr
        skip_eth) px py := fun hr =>
    from4 (RTB_mono _ px py 1 19 2 24 1 31 2 25 (by omega) (by omega) (by omega)
      (by omega)
      (RTB_eth _ skip_eth px py 1 19 2 24 (by omega) (by omega) hr :
        RTB (nocStage4 bad_tensix_cols bad_gddr pcie_instance skip_eth)
          px py 1 19 2 24))
  have from3 : RTB (nocStage3 bad_tensix_cols bad_gddr pcie_instance)
      px py 1 19 2 24 →
      roundtripAt (ComputeNocTranslation pcie_instance bad_tensix_cols bad_gddr
        skip_eth) px py := fun hr =>
    from3A (RTB_apply _ _ _ _ _ _ _ _ _ _ _ _ _ _ _ (by omega) (by omega) (by omega)
      (by omega) (by omega) (by omega) hr :
      RTB (nocStage3A bad_tensix_cols bad_gddr pcie_instance) px py 1 19 2 24)
  have from2A : RTB (nocStage2A bad_tensix_cols bad_gddr) px py 1 17 2 23 →
      roundtripAt (ComputeNocTranslation pcie_instance bad_tensix_cols bad_gddr
        skip_eth) px py := fun hr =>
    from3 (RTB_mono _ px py 1 17 2 23 1 19 2 24 (by omega) (by omega) (by omega)
      (by omega)
      (RTB_pcie _ pcie_instance px py 1 17 2 23 (by omega) (by omega) hr :
        RTB (nocStage3 bad_tensix_cols bad_gddr pcie_instance) px py 1 17 2 23))
  have from2 : RTB (nocStage2 bad_tensix_cols bad_gddr) px py 1 17 2 23 →
      roundtripAt (ComputeNocTranslation pcie_instance bad_tensix_cols bad_gddr
        skip_eth) px py := fun hr =>
    from2A (RTB_apply _ _ _ _ _ _ _ _ _ _ _ _ _ _ _ (by omega) (by omega) (by omega)
      (by omega) (by omega) (by omega)
      (RTB_apply _ _ _ _ _ _ _ _ _ _ _ _ _ _ _ (by omega) (by omega) (by omega)
        (by omega) (by omega) (by omega) hr :
        RTB (ApplyLogicalCoords (nocStage2 bad_tensix_cols bad_gddr)
          0 0 0 11 17 12 17 23) px py 1 17 2 23) :
      RTB (nocStage2A bad_tensix_cols bad_gddr) px py 1 17 2 23)
  have from1A : RTB (nocStage1A bad_tensix_cols) px py 1 16 2 11 →
      roundtripAt (ComputeNocTranslation pcie_instance bad_tensix_cols bad_gddr
        skip_eth) px py := fun hr =>
    from2 (RTB_mono _ px py 1 16 2 11 1 17 2 23 (by omega) (by omega) (by omega)
      (by omega)
      (RTB_gddr _ bad_gddr px py 1 16 2 11 (by omega) (by omega) hr :
        RTB (nocStage2 bad_tensix_cols bad_gddr) px py 1 16 2 11))
  unfold nocApplied at h
  simp only [Bool.or_eq_true] at h
  rcases h with ((((((((h1 | h2) | h3) | h4) | h5) | h6) | h7) | h8) | h9)
  · exact from1A (RTB_apply _ _ _ _ _ _ _ _ _ _ _ _ _ _ _ (by omega) (by omega)
      (by omega) (by omega) (by omega) (by omega)
      (RTB_start _ _ _ _ _ _ _ _ _ _ _ (by omega) (by omega) h1 :
        RTB (ApplyLogicalCoords (nocStage1 bad_tensix_cols) 1 2 7 11 1 2 16 11)
          px py 1 16 2 11) :
      RTB (nocStage1A bad_tensix_cols) px py 1 16 2 11)
  · exact from1A (RTB_start _ _ _ _ _ _ _ _ _ _ _ (by omega) (by omega) h2 :
      RTB (nocStage1A bad_tensix_cols) px py 1 16 2 11)
  · exact from2A (RTB_apply _ _ _ _ _ _ _ _ _ _ _ _ _ _ _ (by omega) (by omega)
      (by omega) (by omega) (by omega) (by omega)
      (RTB_mono _ px py 17 17 12 23 1 17 2 23 (by omega) (by omega) (by omega)
        (by omega)
        (RTB_start _ _ _ _ _ _ _ _ _ _ _ (by omega) (by omega) h3 :
          RTB (ApplyLogicalCoords (nocStage2 bad_tensix_cols bad_gddr)
            0 0 0 11 17 12 17 23) px py 17 17 12 23)) :
      RTB (nocStage2A bad_tensix_cols bad_gddr) px py 1 17 2 23)
  · exact from2A (RTB_mono _ px py 17 17 12 23 1 17 2 23 (by omega) (by omega)
      (by omega) (by omega)
      (RTB_start _ _ _ _ _ _ _ _ _ _ _ (by omega) (by omega) h4 :
        RTB (nocStage2A bad_tensix_cols bad_gddr) px py 17 17 12 23))
  · exact from3A (RTB_mono _ px py 19 19 24 24 1 19 2 24 (by omega) (by omega)
      (by omega) (by omega)
      (RTB_start _ _ _ _ _ _ _ _ _ _ _ (by omega) (by omega) h5 :
        RTB (nocStage3A bad_tensix_cols bad_gddr pcie_instance) px py 19 19 24 24))
  · exact from4A (RTB_apply _ _ _ _ _ _ _ _ _ _ _ _ _ _ _ (by omega) (by omega)
      (by omega) (by omega) (by omega) (by omega)
      (RTB_mono _ px py 20 31 25 25 1 31 2 25 (by omega) (by omega) (by omega)
        (by omega)
        (RTB_start _ _ _ _ _ _ _ _ _ _ _ (by omega) (by omega) h6 :
          RTB (ApplyLogicalCoords
            (nocStage4 bad_tensix_cols bad_gddr pcie_instance skip_eth)
            1 1 7 1 20 25 31 25) px py 20 31 25 25)) :
      RTB (nocStage4A bad_tensix_cols bad_gddr pcie_instance skip_eth)
        px py 1 31 2 25)
  · exact from4A (RTB_mono _ px py 20 31 25 25 1 31 2 25 (by omega) (by omega)
      (by omega) (by omega)
      (RTB_start _ _ _ _ _ _ _ _ _ _ _ (by omega) (by omega) h7 :
        RTB (nocStage4A bad_tensix_cols bad_gddr pcie_instance skip_eth)
          px py 20 31 25 25))
  · exact from5A (RTB_mono _ px py 8 8 26 29 1 31 2 29 (by omega) (by omega)
      (by omega) (by omega)
      (RTB_start _ _ _ _ _ _ _ _ _ _ _ (by omega) (by omega) h8 :
        RTB (nocStage5A bad_tensix_cols bad_gddr pcie_instance skip_eth)
          px py 8 8 26 29))
  · exact (RTB_start _ _ _ _ _ _ _ _ _ _ _ (by omega) (by omega) h9 :
      RTB (ComputeNocTranslation pcie_instance bad_tensix_cols bad_gddr skip_eth)
        px py 8 8 30 30).1

set_option maxRecDepth 40000 in
/-- Witness for C8: with PCIE instance 0, tensix columns 3 and 9 bad
(bitmap `0x208`), no bad GDDR and `skip_eth = 0x90`, position `(1, 2)` is
written by the tensix `ApplyLogicalCoords` call and round-trips. -/
theorem noc_translation_roundtrip_witness :
    nocApplied 0 520 255 144 1 2 = true ∧
    roundtripAt (ComputeNocTranslation 0 520 255 144) 1 2 :=
  ⟨by decide, noc_translation_roundtrip 0 520 255 144 1 2 (by decide)⟩

end TT
